import Mathlib

/-!
Verification of the supermarket queueing simulation (`src/simulator.py`).

The Python program drives a simpy discrete-event simulation.  We embed it
shallowly as a deterministic state machine:

* simulated time and money are rationals (the Python floats carry exact
  values of the random draws; no claim here depends on rounding);
* random draws (`np.random.exponential`) are supplied by oracles, one
  stream for interarrival gaps and one for service durations;
* simpy's event heap is a list of pending `Event`s popped in
  `(time, priority, eid)` lexicographic order, exactly simpy's ordering
  (`Initialize`-style events carry priority 0 = URGENT, timeouts
  priority 1 = NORMAL, event ids increase in creation order);
* a simpy process body is cut at its `yield` points: each resume point is
  an `Event` kind and its handler runs the body up to the next yield.
  Continuations that simpy runs later within the same instant but that
  touch no observable state in between (the grant cascade on release)
  are collapsed into the releasing step;
* Python exceptions are modelled with `Except`: an exception inside a
  process aborts `env.run`, hence the whole `simulate` call.

Ghost instrumentation (not in the source, changes no behaviour): `served`
counts customers whose service completed (profit `+= 10` site),
`windowsOpened` / `windowsCharged` / `openedAt` track overflow-activation
windows (the `open_extra_cashier` flag's mutation sites).
-/

/-- The two streams of random draws consumed by one replication:
`gaps k` is the `k`-th interarrival draw of `customer_arrival`, and
`services cid` is the service-time draw of customer `cid`. -/
structure Oracles where
  gaps : Nat → ℚ
  services : Nat → ℚ

/-- Keyword parameters of `Supermarket.__init__` with the source defaults. -/
structure Params where
  num_cashiers : Nat := 4
  extra_cashier_policy : Nat := 4
  lambda_rate : ℚ := 4
  C : ℚ := 3

/-- One `simpy.Resource(env)` (capacity 1): a currently-held flag plus the
FIFO queue of pending requests, each recorded as
(customer id, arrival time of that customer). -/
structure CashierState where
  busy : Bool
  queue : List (Nat × ℚ)
deriving DecidableEq

/-- A routing target returned by `choose_cashier`: a regular cashier by
pool index, or the single overflow (extra) cashier. -/
inductive Tgt where
  | reg (i : Nat)
  | extra
deriving DecidableEq

/-- Resume points of the simpy processes (one constructor per scheduled
event of the source):
`arrivalInit` = the `Initialize` of `customer_arrival`;
`arrivalTimeout k` = its `k`-th interarrival timeout elapsing;
`custStart cid` = the `Initialize` of `customer_process` for customer
`cid` (its time is the customer's `arrival_time`);
`openExtra` = the `Initialize` of `open_extra_cashier_process`;
`closeExtra` = its `timeout(2)` elapsing;
`renege cid tgt` = the patience `timeout(1)` of the request race;
`serviceDone cid tgt` = the service timeout elapsing. -/
inductive EvKind where
  | arrivalInit
  | arrivalTimeout (k : Nat)
  | custStart (cid : Nat)
  | openExtra
  | closeExtra
  | renege (cid : Nat) (tgt : Tgt)
  | serviceDone (cid : Nat) (tgt : Tgt)
deriving DecidableEq

/-- A pending scheduled event, mirroring simpy's heap entries
`(time, priority, eid, event)`. -/
structure Event where
  time : ℚ
  prio : Nat
  eid : Nat
  kind : EvKind
deriving DecidableEq

/-- Python exceptions that can abort a `simulate` call.
`configurationError` is the condition named by the specification's error
taxonomy; the source has no code path raising it — it is listed so that
its absence can be stated.  The others are raised by the source:
`indexError` by `queues[0]` on an empty cashier list, `zeroDivisionError`
by `1.0 / lambda_rate` at `lambda_rate = 0`, `valueError` by
`np.random.exponential` on a negative scale. -/
inductive SimError where
  | configurationError
  | indexError
  | zeroDivisionError
  | valueError
deriving DecidableEq

/-- The full state of one replication: the environment clock and event
list, the `Supermarket` instance fields of `__init__` (lines 7-18), and
the ghost counters described in the file header. -/
structure Sim where
  now : ℚ
  nextEid : Nat
  nextCid : Nat
  events : List Event
  num_cashiers : Nat
  extra_cashier_policy : Nat
  lambda_rate : ℚ
  C : ℚ
  cashiers : List CashierState
  lost_customers : Nat
  profit : ℚ
  waiting_times : List ℚ
  open_extra_cashier : Bool
  extra : CashierState
  served : Nat
  windowsOpened : Nat
  windowsCharged : Nat
  openedAt : ℚ
deriving DecidableEq

/-- Stable insertion of a `(queue length, pool index)` pair into an
already-sorted list: the new pair goes before the first entry whose key
is not smaller, so earlier-listed pairs keep their place on equal keys. -/
def insertPair (a : Nat × Nat) : List (Nat × Nat) → List (Nat × Nat)
  | [] => [a]
  | b :: l => if b.1 < a.1 then b :: insertPair a l else a :: b :: l

/-- Embeds `queues.sort(key=lambda x: x[0])` of line 45.  Python's `list.sort`
is stable, and a stable sort by a fixed key is extensionally unique, so
this stable insertion sort computes exactly the list Python produces. -/
def stableSort : List (Nat × Nat) → List (Nat × Nat)
  | [] => []
  | a :: l => insertPair a (stableSort l)

/-- The first pair attaining the minimal key, used to characterise the
head of the stable sort. -/
def firstMin : List (Nat × Nat) → Option (Nat × Nat)
  | [] => none
  | a :: l =>
    match firstMin l with
    | none => some a
    | some b => some (if b.1 < a.1 then b else a)

/-- simpy's heap order on pending events: by time, then priority
(0 = URGENT before 1 = NORMAL), then event id. -/
def evLe (a b : Event) : Prop :=
  a.time < b.time ∨
    (a.time = b.time ∧ (a.prio < b.prio ∨ (a.prio = b.prio ∧ a.eid ≤ b.eid)))

instance (a b : Event) : Decidable (evLe a b) := by
  unfold evLe; infer_instance

/-- Pop the next event simpy would process: the pending event that is
minimal in `(time, priority, eid)` order, together with the remaining
events. -/
def popNext : List Event → Option (Event × List Event)
  | [] => none
  | e :: l =>
    match popNext l with
    | none => some (e, [])
    | some (m, rest) => if evLe e m then some (e, l) else some (m, e :: rest)

/-- Append a fresh event with the next event id (`env.schedule`). -/
def pushEv (s : Sim) (t : ℚ) (prio : Nat) (k : EvKind) : Sim :=
  { s with events := s.events ++ [⟨t, prio, s.nextEid, k⟩],
           nextEid := s.nextEid + 1 }

/-- The resource a routing target denotes. -/
def Sim.tgtRes (s : Sim) : Tgt → CashierState
  | .reg i => s.cashiers.getD i ⟨false, []⟩
  | .extra => s.extra

/-- Replace the resource a routing target denotes. -/
def Sim.setTgt (s : Sim) : Tgt → CashierState → Sim
  | .reg i, r => { s with cashiers := s.cashiers.set i r }
  | .extra, r => { s with extra := r }

/-- Embeds `self.env.process(self.open_extra_cashier_process())` of line 52:
schedule the process body (an `Initialize`, priority URGENT) at the
current time. -/
def spawnOpenExtra (s : Sim) : Sim :=
  pushEv s s.now 0 .openExtra

/-- Embeds `Supermarket.choose_cashier` (lines 43-54).  Builds the
`(queue length, pool index)` pairs, stably sorts them by length and takes
the head (`queues[0]` raises IndexError when there are no cashiers — this
happens before the overflow check, exactly as in the source).  If the
overflow window is open, route to the extra cashier unconditionally.
Otherwise spawn the overflow-activation process when the minimum queue
length reaches the policy threshold, and return the minimum cashier when
its queue is shorter than 5, `none` (balk) otherwise. -/
def choose_cashier (s : Sim) : Except SimError (Option Tgt × Sim) :=
  match stableSort ((s.cashiers.enum).map fun ic => (ic.2.queue.length, ic.1)) with
  | [] => .error .indexError
  | (min_queue, min_idx) :: _ =>
    if s.open_extra_cashier then .ok (some .extra, s)
    else
      let s1 := if s.open_extra_cashier = false ∧ s.extra_cashier_policy ≤ min_queue
                then spawnOpenExtra s else s
      .ok (if min_queue < 5 then some (.reg min_idx) else none, s1)

/-- Lines 30-31: `with cashier.request() as request:` followed by
`yield request | self.env.timeout(1)`.  If the resource is free the
request is granted synchronously (simpy triggers it at request time):
the wait `now - arrival_time` (zero here) is recorded and the service
timeout is scheduled; the patience timeout is still created, as in the
source, and is a no-op when it later fires.  Otherwise the request joins
the FIFO queue and only the patience timeout is scheduled. -/
def requestRace (g : Oracles) (cid : Nat) (arrival : ℚ) (tgt : Tgt) (s : Sim) : Sim :=
  let r := s.tgtRes tgt
  if r.busy then
    let s1 := s.setTgt tgt { r with queue := r.queue ++ [(cid, arrival)] }
    pushEv s1 (s1.now + 1) 1 (.renege cid tgt)
  else
    let s1 := s.setTgt tgt { r with busy := true }
    let s2 := { s1 with waiting_times := s1.waiting_times ++ [s1.now - arrival] }
    let s3 := pushEv s2 (s2.now + 1) 1 (.renege cid tgt)
    pushEv s3 (s3.now + g.services cid) 1 (.serviceDone cid tgt)

/-- Runs `customer_process` up to its first yield (lines 27-31 and the
balking arm of line 41): route, count the customer as lost when routing
returned no cashier, otherwise enter the request/patience race. -/
def handleCustStart (g : Oracles) (cid : Nat) (arrival : ℚ) (s : Sim) :
    Except SimError Sim :=
  match choose_cashier s with
  | .error e => .error e
  | .ok (none, s1) => .ok { s1 with lost_customers := s1.lost_customers + 1 }
  | .ok (some tgt, s1) => .ok (requestRace g cid arrival tgt s1)

/-- The patience timeout firing (the `else` arm of lines 38-39 plus the
request cancellation at `with`-exit): if the customer is still queued the
pending request is withdrawn and the customer is counted lost; if the
request was already granted the timeout is a dead event and nothing
happens. -/
def removeFirstQ (cid : Nat) : List (Nat × ℚ) → List (Nat × ℚ)
  | [] => []
  | x :: l => if x.1 = cid then l else x :: removeFirstQ cid l

def handleRenege (cid : Nat) (tgt : Tgt) (s : Sim) : Sim :=
  let r := s.tgtRes tgt
  if (r.queue.map Prod.fst).contains cid then
    let s1 := s.setTgt tgt { r with queue := removeFirstQ cid r.queue }
    { s1 with lost_customers := s1.lost_customers + 1 }
  else s

/-- The service timeout elapsing (line 37 and the release at `with`-exit):
add the revenue of 10, then release the slot — the head of the FIFO
queue, if any, is granted immediately: its wait is recorded and its
service timeout scheduled (simpy runs that continuation at the same
instant; no observable state is read in between, so it is collapsed
here). -/
def handleServiceDone (g : Oracles) (_cid : Nat) (tgt : Tgt) (s : Sim) : Sim :=
  let s1 := { s with profit := s.profit + 10, served := s.served + 1 }
  let r := s1.tgtRes tgt
  match r.queue with
  | [] => s1.setTgt tgt { r with busy := false }
  | (c2, arr2) :: restq =>
    let s2 := s1.setTgt tgt { r with queue := restq }
    let s3 := { s2 with waiting_times := s2.waiting_times ++ [s2.now - arr2] }
    pushEv s3 (s3.now + g.services c2) 1 (.serviceDone c2 tgt)

/-- Runs `open_extra_cashier_process` up to its yield (lines 56-59): a no-op
when the window is already open, otherwise open the window and schedule
its close two time units later. -/
def handleOpenExtra (s : Sim) : Sim :=
  if s.open_extra_cashier then s
  else
    let s1 := { s with open_extra_cashier := true, openedAt := s.now,
                       windowsOpened := s.windowsOpened + 1 }
    pushEv s1 (s1.now + 2) 1 .closeExtra

/-- The tail of `open_extra_cashier_process` (lines 60-61): close the
window and charge the activation cost `2 * C` once. -/
def handleCloseExtra (s : Sim) : Sim :=
  { s with open_extra_cashier := false, profit := s.profit - 2 * s.C,
           windowsCharged := s.windowsCharged + 1 }

/-- The scale computation of line 22, `np.random.exponential(1.0 /
self.lambda_rate)`: `1.0 / 0` raises ZeroDivisionError, a negative scale
makes numpy raise ValueError; otherwise the draw is read off the oracle. -/
def drawGapCheck (s : Sim) : Except SimError Unit :=
  if s.lambda_rate = 0 then .error .zeroDivisionError
  else if s.lambda_rate < 0 then .error .valueError
  else .ok ()

/-- The `Initialize` of `customer_arrival`: the first loop iteration up
to its yield — draw the first gap and schedule the first arrival
timeout. -/
def handleArrivalInit (g : Oracles) (s : Sim) : Except SimError Sim :=
  match drawGapCheck s with
  | .error e => .error e
  | .ok _ => .ok (pushEv s (s.now + g.gaps 0) 1 (.arrivalTimeout 0))

/-- The `k`-th arrival timeout elapsing (lines 23-25 then the next loop
iteration up to its yield): spawn `customer_process` for a fresh customer
id (an `Initialize` at the current time — its time is the customer's
`arrival_time`), then draw the next gap and schedule the next timeout. -/
def handleArrivalTimeout (g : Oracles) (k : Nat) (s : Sim) :
    Except SimError Sim :=
  let s1 := pushEv s s.now 0 (.custStart s.nextCid)
  let s2 := { s1 with nextCid := s1.nextCid + 1 }
  match drawGapCheck s2 with
  | .error e => .error e
  | .ok _ => .ok (pushEv s2 (s2.now + g.gaps (k + 1)) 1 (.arrivalTimeout (k + 1)))

/-- Dispatch one popped event to the process body it resumes. -/
def handleEv (g : Oracles) (e : Event) (s : Sim) : Except SimError Sim :=
  match e.kind with
  | .arrivalInit => handleArrivalInit g s
  | .arrivalTimeout k => handleArrivalTimeout g k s
  | .custStart cid => handleCustStart g cid e.time s
  | .openExtra => .ok (handleOpenExtra s)
  | .closeExtra => .ok (handleCloseExtra s)
  | .renege cid tgt => .ok (handleRenege cid tgt s)
  | .serviceDone cid tgt => .ok (handleServiceDone g cid tgt s)

/-- One iteration of `env.run(until=hor)`: pop the earliest pending
event; the run is over (`.ok none`) when none is left or the next one is
not due before the horizon (simpy's `until` event has URGENT priority and
an earlier event id than anything scheduled during the run, so events at
exactly the horizon are not processed); otherwise advance the clock and
run the resumed process body. -/
def stepRep (g : Oracles) (hor : ℚ) (s : Sim) : Except SimError (Option Sim) :=
  match popNext s.events with
  | none => .ok none
  | some (e, rest) =>
    if hor ≤ e.time then .ok none
    else (handleEv g e { s with now := e.time, events := rest }).map some

/-- Lines 66-68 of `simulate`: a fresh environment, a `Supermarket`
built by `__init__` (no parameter validation of any kind), and the
registered `customer_arrival` process (event id 0; id 1 is reserved for
the `until` event of `env.run`). -/
def initSim (p : Params) : Sim :=
  { now := 0, nextEid := 2, nextCid := 0,
    events := [⟨0, 0, 0, .arrivalInit⟩],
    num_cashiers := p.num_cashiers,
    extra_cashier_policy := p.extra_cashier_policy,
    lambda_rate := p.lambda_rate, C := p.C,
    cashiers := List.replicate p.num_cashiers ⟨false, []⟩,
    lost_customers := 0, profit := 0, waiting_times := [],
    open_extra_cashier := false, extra := ⟨false, []⟩,
    served := 0, windowsOpened := 0, windowsCharged := 0, openedAt := 0 }

/-- States of one replication reachable from the just-built environment
by successful simulation steps. -/
inductive Reachable (g : Oracles) (hor : ℚ) (p : Params) : Sim → Prop
  | init : Reachable g hor p (initSim p)
  | step {s s' : Sim} : Reachable g hor p s → stepRep g hor s = .ok (some s') →
      Reachable g hor p s'

/-- Runs `env.run(until=hor)` with step fuel: `.ok (some s)` is a completed
run, `.ok none` means the fuel ran out before the horizon (the Python
loop would still be running), `.error` a propagated exception. -/
def runRep (g : Oracles) (hor : ℚ) : Nat → Sim → Except SimError (Option Sim)
  | 0, _ => .ok none
  | fuel + 1, s =>
    match stepRep g hor s with
    | .error err => .error err
    | .ok none => .ok (some s)
    | .ok (some s') => runRep g hor fuel s'

/-- Embeds `np.mean(supermarket.waiting_times)` of line 71 over the exact
rational samples of one replication.  `np.mean([])` is IEEE NaN (numpy
warns about the empty slice and returns `nan`), modelled as `none`. -/
def avgWaitQ (waits : List ℚ) : Option ℚ :=
  if waits.isEmpty then none else some (waits.sum / waits.length)

/-- One iteration of the loop of lines 65-72: build the environment and
model, run to the horizon of 200, and read off the three per-replication
scalars. -/
def runReplication (p : Params) (g : Oracles) (fuel : Nat) :
    Except SimError (Option (ℚ × Nat × Option ℚ)) :=
  match runRep g 200 fuel (initSim p) with
  | .error e => .error e
  | .ok none => .ok none
  | .ok (some s) => .ok (some (s.profit, s.lost_customers, avgWaitQ s.waiting_times))

/-- The replication loop from run index `i` on, collecting the
`profits`, `lost_customers` and `avg_waiting_times` lists; a Python
exception in any replication aborts the whole call, so no partial lists
survive an error. -/
def runReplicationsFrom (p : Params) (gs : Nat → Oracles) (fuel i : Nat) :
    Nat → Except SimError (Option (List ℚ × List Nat × List (Option ℚ)))
  | 0 => .ok (some ([], [], []))
  | n + 1 =>
    match runReplication p (gs i) fuel with
    | .error e => .error e
    | .ok none => .ok none
    | .ok (some (pr, lo, aw)) =>
      match runReplicationsFrom p gs fuel (i + 1) n with
      | .error e => .error e
      | .ok none => .ok none
      | .ok (some (ps, ls, ws)) => .ok (some (pr :: ps, lo :: ls, aw :: ws))

def runReplications (p : Params) (gs : Nat → Oracles) (fuel n : Nat) :
    Except SimError (Option (List ℚ × List Nat × List (Option ℚ))) :=
  runReplicationsFrom p gs fuel 0 n

/-- Embeds `np.mean` over reals. -/
noncomputable def npMean (xs : List ℝ) : ℝ := xs.sum / xs.length

/-- Embeds `np.std(xs)` with numpy's default `ddof = 0`: the square root of the
mean of the squared deviations — the population standard deviation. -/
noncomputable def npStd (xs : List ℝ) : ℝ :=
  Real.sqrt (npMean (xs.map fun x => (x - npMean xs) ^ 2))

/-- NaN-aware `np.mean` over a float list that may hold NaN (`none`):
a NaN entry, or an empty list, yields NaN. -/
noncomputable def meanNaN (xs : List (Option ℝ)) : Option ℝ :=
  if xs.isEmpty || xs.any fun x => x.isNone then none
  else some (npMean xs.reduceOption)

/-- NaN-aware `np.std`, same propagation. -/
noncomputable def stdNaN (xs : List (Option ℝ)) : Option ℝ :=
  if xs.isEmpty || xs.any fun x => x.isNone then none
  else some (npStd xs.reduceOption)

/-- The wait-time half-width of line 77 with NaN propagation. -/
noncomputable def ciNaN (xs : List (Option ℝ)) (n : Nat) : Option ℝ :=
  (stdNaN xs).map fun sd => 1.96 * sd / Real.sqrt n

/-- Lines 74-79 of `simulate`: the aggregation and the returned pair of
pairs.  The `lost_customers` list collected on line 72 is passed in
because the source collects it — and then never reads it again. -/
noncomputable def simulateReturn (profits : List ℝ) (_lost : List Nat)
    (avgWaits : List (Option ℝ)) (numRuns : Nat) :
    (ℝ × ℝ) × (Option ℝ × Option ℝ) :=
  ((npMean profits, 1.96 * npStd profits / Real.sqrt numRuns),
   (meanNaN avgWaits, ciNaN avgWaits numRuns))

/-- The whole of `simulate(supermarket_params, num_runs)`: run the
replications (any exception aborts atomically), then aggregate. -/
noncomputable def simulateModel (p : Params) (gs : Nat → Oracles)
    (fuel num_runs : Nat) :
    Except SimError (Option ((ℝ × ℝ) × (Option ℝ × Option ℝ))) :=
  match runReplications p gs fuel num_runs with
  | .error e => .error e
  | .ok none => .ok none
  | .ok (some (ps, ls, ws)) =>
    .ok (some (simulateReturn (ps.map fun q => (q : ℝ)) ls
      (ws.map fun w => w.map fun q => (q : ℝ)) num_runs))

/-- The specification's claimed half-width ingredient: the sample
standard deviation with divisor `n - 1` (this definition follows the
claim's words, to be compared with the source's `npStd`). -/
noncomputable def sampleStdSpec (xs : List ℝ) : ℝ :=
  Real.sqrt ((xs.map fun x => (x - npMean xs) ^ 2).sum / ((xs.length : ℝ) - 1))

/-- The population standard deviation written as the amended claim
states it: square root of the sum of squared deviations divided by `n`. -/
noncomputable def popStdSpec (xs : List ℝ) : ℝ :=
  Real.sqrt ((xs.map fun x => (x - npMean xs) ^ 2).sum / (xs.length : ℝ))

/-- Is this pending event the overflow-window close (`timeout(2)` of
`open_extra_cashier_process`)? -/
def isClose : Event → Bool
  | ⟨_, _, _, EvKind.closeExtra⟩ => true
  | _ => false

/-- Number of pending window-close events. -/
def closeCount (l : List Event) : Nat := l.countP isClose

/-- The overflow-window invariant: while the window is open there is
exactly one pending close event, due exactly two time units after the
window opened and not before the clock, and one more window has been
opened than charged; while it is closed no close event is pending and
every opened window has been charged exactly once. -/
def OverflowInv (s : Sim) : Prop :=
  (s.open_extra_cashier = true →
    closeCount s.events = 1 ∧
    (∀ e ∈ s.events, isClose e = true → e.time = s.openedAt + 2) ∧
    s.windowsOpened = s.windowsCharged + 1 ∧
    s.now ≤ s.openedAt + 2) ∧
  (s.open_extra_cashier = false →
    closeCount s.events = 0 ∧ s.windowsOpened = s.windowsCharged)

/-! Concrete fixtures used by witnesses. -/

/-- Oracle whose first interarrival gap already exceeds the horizon. -/
def gLate : Oracles := ⟨fun _ => 300, fun _ => 1⟩

/-- Oracle with unit interarrival gaps and unit service times. -/
def gOne : Oracles := ⟨fun _ => 1, fun _ => 1⟩

/-- The source's default `Supermarket` parameters. -/
def pDefault : Params := {}

def pZeroCash : Params := { num_cashiers := 0 }
def pLamZero : Params := { lambda_rate := 0 }
def pLamNeg : Params := { lambda_rate := -1 }
def pNegC : Params := { C := -1 }

/-- Final state of the replication in which no customer arrives before
the horizon: the arrival generator has scheduled its first timeout at
300, past the horizon of 200, and nothing else ever happens. -/
def lateFinal : Sim :=
  { initSim pDefault with
      nextEid := 3,
      events := [⟨300, 1, 2, .arrivalTimeout 0⟩] }

/-- A state whose three regular cashiers have queue lengths 2, 1, 1 —
the tie between cashiers 1 and 2 must break to index 1. -/
def sTie : Sim :=
  { initSim pDefault with
      cashiers := [⟨true, [(7, 0), (8, 0)]⟩, ⟨true, [(9, 0)]⟩, ⟨true, [(10, 0)]⟩] }

/-- A state whose only pending event is the patience timeout of the
still-queued customer 0. -/
def sPatience : Sim :=
  { initSim pDefault with
      cashiers := [⟨true, [(0, 0)]⟩],
      events := [⟨1, 1, 5, .renege 0 (.reg 0)⟩] }

def sPatienceNext : Sim :=
  match stepRep gLate 200 sPatience with
  | .ok (some s) => s
  | _ => sPatience

/-- A state about to route a customer while the single regular cashier
has a saturated queue (length 5) and the overflow window is closed. -/
def sSaturated : Sim :=
  { initSim pDefault with
      cashiers := [⟨true, [(1, 0), (2, 0), (3, 0), (4, 0), (5, 0)]⟩],
      events := [⟨1, 0, 9, .custStart 6⟩] }

def sSaturatedNext : Sim :=
  match stepRep gLate 200 sSaturated with
  | .ok (some s) => s
  | _ => sSaturated


instance {e a : Type} [DecidableEq e] [DecidableEq a] :
    DecidableEq (Except e a) := fun x y =>
  match x, y with
  | .ok u, .ok v =>
    if h : u = v then isTrue (by rw [h])
    else isFalse (by intro hc; cases hc; exact h rfl)
  | .error u, .error v =>
    if h : u = v then isTrue (by rw [h])
    else isFalse (by intro hc; cases hc; exact h rfl)
  | .ok _, .error _ => isFalse (by intro hc; cases hc)
  | .error _, .ok _ => isFalse (by intro hc; cases hc)

/-! Part: Lemmas about the stable sort and the event queue -/

theorem insertPair_head (a : Nat × Nat) (l : List (Nat × Nat)) :
    (insertPair a l).head? =
      some (match l.head? with
            | none => a
            | some b => if b.1 < a.1 then b else a) := by
  cases l with
  | nil => simp [insertPair]
  | cons b t => by_cases h : b.1 < a.1 <;> simp [insertPair, h]

theorem stableSort_head (l : List (Nat × Nat)) :
    (stableSort l).head? = firstMin l := by
  induction l with
  | nil => rfl
  | cons a t ih =>
    rw [stableSort, insertPair_head, ih]
    cases h : firstMin t <;> simp [firstMin, h]

theorem firstMin_mem : ∀ {l : List (Nat × Nat)} {a : Nat × Nat},
    firstMin l = some a → a ∈ l := by
  intro l
  induction l with
  | nil => intro a h; simp [firstMin] at h
  | cons b t ih =>
    intro a h
    rw [firstMin] at h
    cases hf : firstMin t with
    | none => rw [hf] at h; simp at h; simp [h]
    | some c =>
      rw [hf] at h
      by_cases hc : c.1 < b.1 <;> simp [hc] at h
      · exact List.mem_cons_of_mem _ (h ▸ ih hf)
      · subst h; exact List.mem_cons_self _ _

theorem evLe_time {a b : Event} (h : evLe a b) : a.time ≤ b.time := by
  rcases h with h | ⟨h, _⟩
  · exact le_of_lt h
  · exact le_of_eq h

theorem time_le_of_not_evLe {a b : Event} (h : ¬ evLe a b) : b.time ≤ a.time := by
  by_contra hb
  push_neg at hb
  exact h (Or.inl hb)

theorem popNext_cons_isSome (e : Event) (l : List Event) :
    (popNext (e :: l)).isSome := by
  unfold popNext
  cases popNext l with
  | none => rfl
  | some p =>
    obtain ⟨m, rest⟩ := p
    by_cases h : evLe e m <;> simp [h]

theorem popNext_perm : ∀ {l : List Event} {e : Event} {rest : List Event},
    popNext l = some (e, rest) → l.Perm (e :: rest) := by
  intro l
  induction l with
  | nil => intro e rest h; simp [popNext] at h
  | cons a t ih =>
    intro e rest h
    unfold popNext at h
    cases hp : popNext t with
    | none =>
      rw [hp] at h
      cases t with
      | nil =>
        simp at h
        obtain ⟨he, hr⟩ := h
        subst he; subst hr
        exact List.Perm.refl _
      | cons b u =>
        have hs := popNext_cons_isSome b u
        rw [hp] at hs
        simp at hs
    | some p =>
      obtain ⟨m, mrest⟩ := p
      rw [hp] at h
      by_cases hle : evLe a m <;> simp [hle] at h
      · obtain ⟨he, hr⟩ := h
        subst he; subst hr
        exact List.Perm.refl _
      · obtain ⟨he, hr⟩ := h
        subst he; subst hr
        exact ((ih hp).cons a).trans (List.Perm.swap _ _ _)

theorem popNext_min : ∀ {l : List Event} {e : Event} {rest : List Event},
    popNext l = some (e, rest) → ∀ x ∈ rest, e.time ≤ x.time := by
  intro l
  induction l with
  | nil => intro e rest h; simp [popNext] at h
  | cons a t ih =>
    intro e rest h
    unfold popNext at h
    cases hp : popNext t with
    | none =>
      rw [hp] at h
      simp at h
      obtain ⟨he, hr⟩ := h
      subst he; subst hr
      intro x hx
      simp at hx
    | some p =>
      obtain ⟨m, mrest⟩ := p
      rw [hp] at h
      by_cases hle : evLe a m <;> simp [hle] at h
      · obtain ⟨he, hr⟩ := h
        subst he; subst hr
        intro x hx
        have hperm := popNext_perm hp
        have hx2 := (hperm.mem_iff).mp hx
        rcases List.mem_cons.mp hx2 with hx3 | hx3
        · exact hx3 ▸ evLe_time hle
        · exact le_trans (evLe_time hle) (ih hp x hx3)
      · obtain ⟨he, hr⟩ := h
        subst he; subst hr
        intro x hx
        rcases List.mem_cons.mp hx with hx' | hx'
        · exact hx' ▸ time_le_of_not_evLe hle
        · exact ih hp x hx'

/-- Destructor for a successful simulation step: the popped event, due
before the horizon, and the handler run on the clock-advanced state. -/
theorem stepRep_ok_some {g : Oracles} {hor : ℚ} {s s' : Sim}
    (h : stepRep g hor s = .ok (some s')) :
    ∃ e rest, popNext s.events = some (e, rest) ∧ e.time < hor ∧
      handleEv g e { s with now := e.time, events := rest } = .ok s' := by
  unfold stepRep at h
  cases hp : popNext s.events with
  | none => rw [hp] at h; simp at h
  | some p =>
    obtain ⟨e, rest⟩ := p
    rw [hp] at h
    by_cases ht : hor ≤ e.time
    · simp [ht] at h
    · refine ⟨e, rest, rfl, lt_of_not_le ht, ?_⟩
      simp [ht] at h
      cases hh : handleEv g e { s with now := e.time, events := rest } with
      | error err => rw [hh] at h; simp [Except.map] at h
      | ok s'' => rw [hh] at h; simp [Except.map] at h; rw [h]

/-- Specification of `firstMin` on the `(queue length, pool index)` pairs
built from the cashier list enumerated from `n`: it returns the length of
a minimal queue together with the position of the first cashier attaining
it. -/
theorem firstMin_enumFrom_spec :
    ∀ (cs : List CashierState) (n : Nat), cs ≠ [] →
    ∃ m i,
      firstMin ((List.enumFrom n cs).map fun ic => (ic.2.queue.length, ic.1)) =
          some (m, i) ∧
      n ≤ i ∧
      (∃ c, cs[i - n]? = some c ∧ c.queue.length = m) ∧
      (∀ c ∈ cs, m ≤ c.queue.length) ∧
      (∀ j, j < i - n → ∀ c, cs[j]? = some c → m < c.queue.length) := by
  intro cs
  induction cs with
  | nil => intro n h; exact absurd rfl h
  | cons a t ih =>
    intro n _
    rw [List.enumFrom_cons, List.map_cons]
    by_cases ht : t = []
    · subst ht
      refine ⟨a.queue.length, n, ?_, le_refl n, ⟨a, by simp, rfl⟩, ?_, ?_⟩
      · simp [firstMin]
      · intro c hc; simp at hc; subst hc; exact le_refl _
      · intro j hj c hc; omega
    · obtain ⟨m', i', hf, hni, ⟨c', hc', hcm⟩, hmin, hstrict⟩ := ih (n + 1) ht
      by_cases hlt : m' < a.queue.length
      · refine ⟨m', i', ?_, by omega, ?_, ?_, ?_⟩
        · simp only [firstMin, hf]; simp [hlt]
        · refine ⟨c', ?_, hcm⟩
          have hi : i' - n = (i' - (n + 1)) + 1 := by omega
          rw [hi]
          simpa using hc'
        · intro c hc
          rcases List.mem_cons.mp hc with h | h
          · subst h; exact le_of_lt hlt
          · exact hmin c h
        · intro j hj c hc
          cases j with
          | zero => simp at hc; subst hc; exact hlt
          | succ j' =>
            have hj' : j' < i' - (n + 1) := by omega
            exact hstrict j' hj' c (by simpa using hc)
      · refine ⟨a.queue.length, n, ?_, le_refl n, ⟨a, by simp, rfl⟩, ?_, ?_⟩
        · simp only [firstMin, hf]; simp [hlt]
        · intro c hc
          rcases List.mem_cons.mp hc with h | h
          · subst h; exact le_refl _
          · exact le_trans (not_lt.mp hlt) (hmin c h)
        · intro j hj c hc; omega

/-- Full characterisation of `choose_cashier` on a nonempty cashier
list: `m` is the minimal regular queue length, `i` the first pool index
attaining it; with the overflow window open the extra cashier is returned
unconditionally and the state is untouched; with it closed, the
activation process is spawned exactly when `m` reaches the policy
threshold, and the first-minimal cashier is returned unless `m ≥ 5`, in
which case the customer is told to balk (`none`). -/
theorem choose_cashier_spec (s : Sim) (hne : s.cashiers ≠ []) :
    ∃ m i,
      (∃ c, s.cashiers[i]? = some c ∧ c.queue.length = m) ∧
      (∀ c ∈ s.cashiers, m ≤ c.queue.length) ∧
      (∀ j, j < i → ∀ c, s.cashiers[j]? = some c → m < c.queue.length) ∧
      (s.open_extra_cashier = true → choose_cashier s = .ok (some .extra, s)) ∧
      (s.open_extra_cashier = false →
        choose_cashier s =
          .ok (if m < 5 then some (.reg i) else none,
               if s.extra_cashier_policy ≤ m then spawnOpenExtra s else s)) := by
  obtain ⟨m, i, hf, _, hc, hmin, hstrict⟩ :=
    firstMin_enumFrom_spec s.cashiers 0 hne
  simp only [Nat.sub_zero] at hc hstrict
  have hh : (stableSort ((s.cashiers.enum).map
      fun ic => (ic.2.queue.length, ic.1))).head? = some (m, i) := by
    rw [stableSort_head, List.enum_eq_enumFrom]
    exact hf
  refine ⟨m, i, hc, hmin, hstrict, ?_, ?_⟩
  · intro hopen
    unfold choose_cashier
    cases hsort : stableSort ((s.cashiers.enum).map
        fun ic => (ic.2.queue.length, ic.1)) with
    | nil => rw [hsort] at hh; simp at hh
    | cons hd tl =>
      rw [hsort] at hh
      simp at hh
      subst hh
      simp [hopen]
  · intro hclosed
    unfold choose_cashier
    cases hsort : stableSort ((s.cashiers.enum).map
        fun ic => (ic.2.queue.length, ic.1)) with
    | nil => rw [hsort] at hh; simp at hh
    | cons hd tl =>
      rw [hsort] at hh
      simp at hh
      subst hh
      simp [hclosed]

/-! Part: Field-projection lemmas for the state transformers -/

@[simp] theorem pushEv_profit (s : Sim) (t : ℚ) (p : Nat) (k : EvKind) :
    (pushEv s t p k).profit = s.profit := rfl
@[simp] theorem pushEv_served (s : Sim) (t : ℚ) (p : Nat) (k : EvKind) :
    (pushEv s t p k).served = s.served := rfl
@[simp] theorem pushEv_windowsCharged (s : Sim) (t : ℚ) (p : Nat) (k : EvKind) :
    (pushEv s t p k).windowsCharged = s.windowsCharged := rfl
@[simp] theorem pushEv_windowsOpened (s : Sim) (t : ℚ) (p : Nat) (k : EvKind) :
    (pushEv s t p k).windowsOpened = s.windowsOpened := rfl
@[simp] theorem pushEv_C (s : Sim) (t : ℚ) (p : Nat) (k : EvKind) :
    (pushEv s t p k).C = s.C := rfl
@[simp] theorem pushEv_open (s : Sim) (t : ℚ) (p : Nat) (k : EvKind) :
    (pushEv s t p k).open_extra_cashier = s.open_extra_cashier := rfl
@[simp] theorem pushEv_openedAt (s : Sim) (t : ℚ) (p : Nat) (k : EvKind) :
    (pushEv s t p k).openedAt = s.openedAt := rfl
@[simp] theorem pushEv_now (s : Sim) (t : ℚ) (p : Nat) (k : EvKind) :
    (pushEv s t p k).now = s.now := rfl
@[simp] theorem pushEv_cashiers (s : Sim) (t : ℚ) (p : Nat) (k : EvKind) :
    (pushEv s t p k).cashiers = s.cashiers := rfl
@[simp] theorem pushEv_extra (s : Sim) (t : ℚ) (p : Nat) (k : EvKind) :
    (pushEv s t p k).extra = s.extra := rfl
@[simp] theorem pushEv_lost (s : Sim) (t : ℚ) (p : Nat) (k : EvKind) :
    (pushEv s t p k).lost_customers = s.lost_customers := rfl
@[simp] theorem pushEv_waits (s : Sim) (t : ℚ) (p : Nat) (k : EvKind) :
    (pushEv s t p k).waiting_times = s.waiting_times := rfl
@[simp] theorem pushEv_events (s : Sim) (t : ℚ) (p : Nat) (k : EvKind) :
    (pushEv s t p k).events = s.events ++ [⟨t, p, s.nextEid, k⟩] := rfl
@[simp] theorem pushEv_lambda (s : Sim) (t : ℚ) (p : Nat) (k : EvKind) :
    (pushEv s t p k).lambda_rate = s.lambda_rate := rfl

@[simp] theorem setTgt_profit (s : Sim) (tgt : Tgt) (r : CashierState) :
    (s.setTgt tgt r).profit = s.profit := by cases tgt <;> rfl
@[simp] theorem setTgt_served (s : Sim) (tgt : Tgt) (r : CashierState) :
    (s.setTgt tgt r).served = s.served := by cases tgt <;> rfl
@[simp] theorem setTgt_windowsCharged (s : Sim) (tgt : Tgt) (r : CashierState) :
    (s.setTgt tgt r).windowsCharged = s.windowsCharged := by cases tgt <;> rfl
@[simp] theorem setTgt_windowsOpened (s : Sim) (tgt : Tgt) (r : CashierState) :
    (s.setTgt tgt r).windowsOpened = s.windowsOpened := by cases tgt <;> rfl
@[simp] theorem setTgt_C (s : Sim) (tgt : Tgt) (r : CashierState) :
    (s.setTgt tgt r).C = s.C := by cases tgt <;> rfl
@[simp] theorem setTgt_open (s : Sim) (tgt : Tgt) (r : CashierState) :
    (s.setTgt tgt r).open_extra_cashier = s.open_extra_cashier := by
  cases tgt <;> rfl
@[simp] theorem setTgt_openedAt (s : Sim) (tgt : Tgt) (r : CashierState) :
    (s.setTgt tgt r).openedAt = s.openedAt := by cases tgt <;> rfl
@[simp] theorem setTgt_now (s : Sim) (tgt : Tgt) (r : CashierState) :
    (s.setTgt tgt r).now = s.now := by cases tgt <;> rfl
@[simp] theorem setTgt_lost (s : Sim) (tgt : Tgt) (r : CashierState) :
    (s.setTgt tgt r).lost_customers = s.lost_customers := by cases tgt <;> rfl
@[simp] theorem setTgt_waits (s : Sim) (tgt : Tgt) (r : CashierState) :
    (s.setTgt tgt r).waiting_times = s.waiting_times := by cases tgt <;> rfl
@[simp] theorem setTgt_events (s : Sim) (tgt : Tgt) (r : CashierState) :
    (s.setTgt tgt r).events = s.events := by cases tgt <;> rfl
@[simp] theorem setTgt_nextEid (s : Sim) (tgt : Tgt) (r : CashierState) :
    (s.setTgt tgt r).nextEid = s.nextEid := by cases tgt <;> rfl
@[simp] theorem setTgt_lambda (s : Sim) (tgt : Tgt) (r : CashierState) :
    (s.setTgt tgt r).lambda_rate = s.lambda_rate := by cases tgt <;> rfl

@[simp] theorem setTgt_nextCid (s : Sim) (tgt : Tgt) (r : CashierState) :
    (s.setTgt tgt r).nextCid = s.nextCid := by cases tgt <;> rfl
@[simp] theorem setTgt_ncash (s : Sim) (tgt : Tgt) (r : CashierState) :
    (s.setTgt tgt r).num_cashiers = s.num_cashiers := by cases tgt <;> rfl
@[simp] theorem setTgt_policy (s : Sim) (tgt : Tgt) (r : CashierState) :
    (s.setTgt tgt r).extra_cashier_policy = s.extra_cashier_policy := by
  cases tgt <;> rfl
@[simp] theorem pushEv_nextCid (s : Sim) (t : ℚ) (p : Nat) (k : EvKind) :
    (pushEv s t p k).nextCid = s.nextCid := rfl
@[simp] theorem pushEv_ncash (s : Sim) (t : ℚ) (p : Nat) (k : EvKind) :
    (pushEv s t p k).num_cashiers = s.num_cashiers := rfl
@[simp] theorem pushEv_policy (s : Sim) (t : ℚ) (p : Nat) (k : EvKind) :
    (pushEv s t p k).extra_cashier_policy = s.extra_cashier_policy := rfl
@[simp] theorem pushEv_nextEid (s : Sim) (t : ℚ) (p : Nat) (k : EvKind) :
    (pushEv s t p k).nextEid = s.nextEid + 1 := rfl

theorem setTgt_reg_cashiers (s : Sim) (i : Nat) (r : CashierState) :
    (s.setTgt (.reg i) r).cashiers = s.cashiers.set i r := rfl
@[simp] theorem setTgt_extra_cashiers (s : Sim) (r : CashierState) :
    (s.setTgt .extra r).cashiers = s.cashiers := rfl
@[simp] theorem setTgt_reg_extra (s : Sim) (i : Nat) (r : CashierState) :
    (s.setTgt (.reg i) r).extra = s.extra := rfl

/-! Part: Effect lemmas for the event handlers -/

/-- The state returned along the routing decision is either untouched or
has had the overflow-activation process spawned (which only schedules an
event). -/
theorem choose_cashier_state {s : Sim} {r : Option Tgt} {s1 : Sim}
    (h : choose_cashier s = .ok (r, s1)) : s1 = s ∨ s1 = spawnOpenExtra s := by
  unfold choose_cashier at h
  cases hsort : stableSort ((s.cashiers.enum).map
      fun ic => (ic.2.queue.length, ic.1)) with
  | nil => rw [hsort] at h; simp at h
  | cons hd tl =>
    rw [hsort] at h
    obtain ⟨mq, mi⟩ := hd
    by_cases ho : s.open_extra_cashier
    · simp [ho] at h
      exact Or.inl h.2.symm
    · simp [ho] at h
      by_cases hp : s.extra_cashier_policy ≤ mq
      · simp [hp] at h
        exact Or.inr h.2.symm
      · simp [hp] at h
        exact Or.inl h.2.symm

/-- When routing returns a regular cashier, that cashier exists and its
queue is strictly shorter than 5. -/
theorem choose_cashier_reg {s s1 : Sim} {i : Nat}
    (h : choose_cashier s = .ok (some (.reg i), s1)) :
    ∃ c, s.cashiers[i]? = some c ∧ c.queue.length < 5 := by
  have hne : s.cashiers ≠ [] := by
    intro hnil
    unfold choose_cashier at h
    rw [hnil] at h
    simp [stableSort] at h
  obtain ⟨m, i', ⟨c, hc, hcm⟩, _, _, hopen, hclosed⟩ := choose_cashier_spec s hne
  by_cases ho : s.open_extra_cashier
  · rw [hopen ho] at h
    simp at h
  · rw [hclosed (by simpa using ho)] at h
    simp at h
    obtain ⟨⟨hm, hi⟩, _⟩ := h
    exact ⟨c, hi ▸ hc, hcm ▸ hm⟩

theorem requestRace_ledger (g : Oracles) (cid : Nat) (arr : ℚ) (tgt : Tgt) (s : Sim) :
    (requestRace g cid arr tgt s).profit = s.profit ∧
    (requestRace g cid arr tgt s).served = s.served ∧
    (requestRace g cid arr tgt s).windowsCharged = s.windowsCharged ∧
    (requestRace g cid arr tgt s).C = s.C ∧
    (requestRace g cid arr tgt s).open_extra_cashier = s.open_extra_cashier ∧
    (requestRace g cid arr tgt s).windowsOpened = s.windowsOpened ∧
    (requestRace g cid arr tgt s).openedAt = s.openedAt ∧
    (requestRace g cid arr tgt s).now = s.now := by
  simp only [requestRace]
  split <;> simp

theorem handleServiceDone_ledger (g : Oracles) (cid : Nat) (tgt : Tgt) (s : Sim) :
    (handleServiceDone g cid tgt s).profit = s.profit + 10 ∧
    (handleServiceDone g cid tgt s).served = s.served + 1 ∧
    (handleServiceDone g cid tgt s).windowsCharged = s.windowsCharged ∧
    (handleServiceDone g cid tgt s).C = s.C ∧
    (handleServiceDone g cid tgt s).open_extra_cashier = s.open_extra_cashier ∧
    (handleServiceDone g cid tgt s).windowsOpened = s.windowsOpened ∧
    (handleServiceDone g cid tgt s).openedAt = s.openedAt ∧
    (handleServiceDone g cid tgt s).now = s.now := by
  simp only [handleServiceDone]
  split <;> simp

theorem handleRenege_ledger (cid : Nat) (tgt : Tgt) (s : Sim) :
    (handleRenege cid tgt s).profit = s.profit ∧
    (handleRenege cid tgt s).served = s.served ∧
    (handleRenege cid tgt s).windowsCharged = s.windowsCharged ∧
    (handleRenege cid tgt s).C = s.C ∧
    (handleRenege cid tgt s).open_extra_cashier = s.open_extra_cashier ∧
    (handleRenege cid tgt s).windowsOpened = s.windowsOpened ∧
    (handleRenege cid tgt s).openedAt = s.openedAt ∧
    (handleRenege cid tgt s).now = s.now ∧
    (handleRenege cid tgt s).events = s.events ∧
    (handleRenege cid tgt s).waiting_times = s.waiting_times := by
  simp only [handleRenege]
  split <;> simp

/-- Accounting ledger of one handler run: profit changes only together
with its matching ghost counter — `+10` with `served` (service
completion, line 37), `-2*C` with `windowsCharged` (window close, line
61) — and the cost coefficient `C` never changes. -/
theorem handleEv_ledger {g : Oracles} {e : Event} {s s' : Sim}
    (h : handleEv g e s = .ok s') :
    s'.C = s.C ∧
    ((s'.profit = s.profit ∧ s'.served = s.served ∧
        s'.windowsCharged = s.windowsCharged) ∨
     (s'.profit = s.profit + 10 ∧ s'.served = s.served + 1 ∧
        s'.windowsCharged = s.windowsCharged) ∨
     (s'.profit = s.profit - 2 * s.C ∧ s'.served = s.served ∧
        s'.windowsCharged = s.windowsCharged + 1)) := by
  obtain ⟨t, pr, id, k⟩ := e
  cases k with
  | arrivalInit =>
    unfold handleEv handleArrivalInit at h
    cases hd : drawGapCheck s with
    | error err => rw [hd] at h; simp at h
    | ok u =>
      rw [hd] at h
      simp at h
      subst h
      simp
  | arrivalTimeout k =>
    unfold handleEv handleArrivalTimeout at h
    simp only at h
    cases hd : drawGapCheck { pushEv s s.now 0 (.custStart s.nextCid) with
        nextCid := (pushEv s s.now 0 (.custStart s.nextCid)).nextCid + 1 } with
    | error err => rw [hd] at h; simp at h
    | ok u =>
      rw [hd] at h
      simp at h
      subst h
      simp [pushEv]
  | custStart cid =>
    unfold handleEv handleCustStart at h
    cases hc : choose_cashier s with
    | error err => rw [hc] at h; simp at h
    | ok p =>
      obtain ⟨ro, s1⟩ := p
      rw [hc] at h
      have hs1 := choose_cashier_state hc
      cases ro with
      | none =>
        simp at h
        subst h
        rcases hs1 with hs1 | hs1 <;> subst hs1 <;> simp [spawnOpenExtra]
      | some tgt =>
        simp at h
        subst h
        obtain ⟨h1, h2, h3, h4, _⟩ := requestRace_ledger g cid t tgt s1
        rcases hs1 with hs1 | hs1 <;> subst hs1
        · exact ⟨h4, Or.inl ⟨h1, h2, h3⟩⟩
        · refine ⟨?_, Or.inl ⟨?_, ?_, ?_⟩⟩
          · rw [h4]; simp [spawnOpenExtra]
          · rw [h1]; simp [spawnOpenExtra]
          · rw [h2]; simp [spawnOpenExtra]
          · rw [h3]; simp [spawnOpenExtra]
  | openExtra =>
    unfold handleEv handleOpenExtra at h
    simp at h
    subst h
    by_cases ho : s.open_extra_cashier <;> simp [ho]
  | closeExtra =>
    unfold handleEv handleCloseExtra at h
    simp at h
    subst h
    simp
  | renege cid tgt =>
    unfold handleEv at h
    simp at h
    subst h
    obtain ⟨h1, h2, h3, h4, _⟩ := handleRenege_ledger cid tgt s
    exact ⟨h4, Or.inl ⟨h1, h2, h3⟩⟩
  | serviceDone cid tgt =>
    unfold handleEv at h
    simp at h
    subst h
    obtain ⟨h1, h2, h3, h4, _⟩ := handleServiceDone_ledger g cid tgt s
    exact ⟨h4, Or.inr (Or.inl ⟨h1, h2, h3⟩)⟩

/-! Part: The profit ledger invariant (towards C1) -/

/-- Along every reachable state, the profit equals ten per completed
service minus `2*C` per charged overflow window, and the cost
coefficient is the configured one. -/
theorem reachable_ledger {g : Oracles} {hor : ℚ} {p : Params} {s : Sim}
    (h : Reachable g hor p s) :
    s.profit = 10 * (s.served : ℚ) - 2 * s.C * (s.windowsCharged : ℚ) ∧
    s.C = p.C := by
  induction h with
  | init => simp [initSim]
  | step hs hstep ih =>
    obtain ⟨e, rest, hpop, ht, hh⟩ := stepRep_ok_some hstep
    obtain ⟨hC, hcase⟩ := handleEv_ledger hh
    obtain ⟨ihp, ihC⟩ := ih
    constructor
    · rcases hcase with ⟨h1, h2, h3⟩ | ⟨h1, h2, h3⟩ | ⟨h1, h2, h3⟩ <;>
        rw [h1, h2, h3, hC, ihp] <;> push_cast <;> ring
    · rw [hC]; exact ihC

theorem runRep_reachable {g : Oracles} {hor : ℚ} {p : Params} :
    ∀ {fuel : Nat} {s s' : Sim}, Reachable g hor p s →
      runRep g hor fuel s = .ok (some s') → Reachable g hor p s' := by
  intro fuel
  induction fuel with
  | zero => intro s s' _ h; simp [runRep] at h
  | succ n ih =>
    intro s s' hr h
    unfold runRep at h
    cases hs : stepRep g hor s with
    | error err => rw [hs] at h; simp at h
    | ok o =>
      rw [hs] at h
      cases o with
      | none => simp at h; exact h ▸ hr
      | some s2 => exact ih (Reachable.step hr hs) h

/-! Part: The overflow-window invariant (towards C3) -/

theorem isClose_iff (e : Event) : isClose e = true ↔ e.kind = .closeExtra := by
  obtain ⟨t, p, i, k⟩ := e
  cases k <;> simp [isClose]

theorem closeCount_append (l1 l2 : List Event) :
    closeCount (l1 ++ l2) = closeCount l1 + closeCount l2 :=
  List.countP_append isClose l1 l2

theorem closeCount_push (l : List Event) (e : Event) (h : isClose e = false) :
    closeCount (l ++ [e]) = closeCount l := by
  rw [closeCount_append]
  simp [closeCount, List.countP_cons, h]

theorem requestRace_closes (g : Oracles) (cid : Nat) (arr : ℚ) (tgt : Tgt) (s : Sim) :
    closeCount (requestRace g cid arr tgt s).events = closeCount s.events ∧
    ∀ x ∈ (requestRace g cid arr tgt s).events, isClose x = true → x ∈ s.events := by
  simp only [requestRace]
  split
  · constructor
    · simp
      rw [closeCount_push _ _ (by simp [isClose])]
    · intro x hx hcx
      simp at hx
      rcases hx with hx | hx
      · exact hx
      · subst hx; simp [isClose] at hcx
  · constructor
    · simp
      rw [closeCount_append]
      simp [closeCount, List.countP_cons, isClose]
    · intro x hx hcx
      simp at hx
      rcases hx with hx | hx | hx
      · exact hx
      · subst hx; simp [isClose] at hcx
      · subst hx; simp [isClose] at hcx

theorem handleServiceDone_closes (g : Oracles) (cid : Nat) (tgt : Tgt) (s : Sim) :
    closeCount (handleServiceDone g cid tgt s).events = closeCount s.events ∧
    ∀ x ∈ (handleServiceDone g cid tgt s).events, isClose x = true → x ∈ s.events := by
  simp only [handleServiceDone]
  split
  · constructor
    · simp
    · intro x hx _; simpa using hx
  · constructor
    · simp
      rw [closeCount_push _ _ (by simp [isClose])]
    · intro x hx hcx
      simp at hx
      rcases hx with hx | hx
      · exact hx
      · subst hx; simp [isClose] at hcx

/-- Handlers other than the two overflow-process resume points never add
a window-close event and never touch the overflow bookkeeping fields. -/
theorem handleEv_other {g : Oracles} {e : Event} {s s' : Sim}
    (h : handleEv g e s = .ok s')
    (hko : e.kind ≠ .openExtra) (hkc : e.kind ≠ .closeExtra) :
    closeCount s'.events = closeCount s.events ∧
    (∀ x ∈ s'.events, isClose x = true → x ∈ s.events) ∧
    s'.open_extra_cashier = s.open_extra_cashier ∧
    s'.openedAt = s.openedAt ∧
    s'.windowsOpened = s.windowsOpened ∧
    s'.windowsCharged = s.windowsCharged ∧
    s'.now = s.now := by
  obtain ⟨t, pr, id, k⟩ := e
  cases k with
  | arrivalInit =>
    unfold handleEv handleArrivalInit at h
    cases hd : drawGapCheck s with
    | error err => rw [hd] at h; simp at h
    | ok u =>
      rw [hd] at h
      simp at h
      subst h
      refine ⟨?_, ?_, by simp, by simp, by simp, by simp, by simp⟩
      · simp
        rw [closeCount_push _ _ (by simp [isClose])]
      · intro x hx hcx
        simp at hx
        rcases hx with hx | hx
        · exact hx
        · subst hx; simp [isClose] at hcx
  | arrivalTimeout k =>
    unfold handleEv handleArrivalTimeout at h
    simp only at h
    cases hd : drawGapCheck { pushEv s s.now 0 (.custStart s.nextCid) with
        nextCid := (pushEv s s.now 0 (.custStart s.nextCid)).nextCid + 1 } with
    | error err => rw [hd] at h; simp at h
    | ok u =>
      rw [hd] at h
      simp at h
      subst h
      refine ⟨?_, ?_, by simp [pushEv], by simp [pushEv], by simp [pushEv],
        by simp [pushEv], by simp [pushEv]⟩
      · simp [pushEv]
        rw [closeCount_append]
        simp [closeCount, List.countP_cons, isClose]
      · intro x hx hcx
        simp [pushEv] at hx
        rcases hx with hx | hx | hx
        · exact hx
        · subst hx; simp [isClose] at hcx
        · subst hx; simp [isClose] at hcx
  | custStart cid =>
    unfold handleEv handleCustStart at h
    cases hc : choose_cashier s with
    | error err => rw [hc] at h; simp at h
    | ok p =>
      obtain ⟨ro, s1⟩ := p
      rw [hc] at h
      have hs1 := choose_cashier_state hc
      have hs1closes : closeCount s1.events = closeCount s.events ∧
          (∀ x ∈ s1.events, isClose x = true → x ∈ s.events) ∧
          s1.open_extra_cashier = s.open_extra_cashier ∧
          s1.openedAt = s.openedAt ∧ s1.windowsOpened = s.windowsOpened ∧
          s1.windowsCharged = s.windowsCharged ∧ s1.now = s.now := by
        rcases hs1 with hs1 | hs1 <;> subst hs1
        · exact ⟨rfl, fun x hx _ => hx, rfl, rfl, rfl, rfl, rfl⟩
        · refine ⟨?_, ?_, by simp [spawnOpenExtra], by simp [spawnOpenExtra],
            by simp [spawnOpenExtra], by simp [spawnOpenExtra], by simp [spawnOpenExtra]⟩
          · simp [spawnOpenExtra]
            rw [closeCount_push _ _ (by simp [isClose])]
          · intro x hx hcx
            simp [spawnOpenExtra] at hx
            rcases hx with hx | hx
            · exact hx
            · subst hx; simp [isClose] at hcx
      obtain ⟨hc1, hc2, hc3, hc4, hc5, hc6, hc7⟩ := hs1closes
      cases ro with
      | none =>
        simp at h
        subst h
        exact ⟨hc1, hc2, hc3, hc4, hc5, hc6, hc7⟩
      | some tgt =>
        simp at h
        subst h
        obtain ⟨hr1, hr2⟩ := requestRace_closes g cid t tgt s1
        obtain ⟨_, _, _, _, hq5, hq6, hq7, hq8⟩ := requestRace_ledger g cid t tgt s1
        exact ⟨hr1.trans hc1, fun x hx hcx => hc2 x (hr2 x hx hcx) hcx,
          hq5.trans hc3, hq7.trans hc4, hq6.trans hc5,
          (requestRace_ledger g cid t tgt s1).2.2.1.trans hc6, hq8.trans hc7⟩
  | openExtra => exact absurd rfl hko
  | closeExtra => exact absurd rfl hkc
  | renege cid tgt =>
    unfold handleEv at h
    simp at h
    subst h
    obtain ⟨_, _, _, _, hn1, hn2, hn3, hn4, hn5, _⟩ := handleRenege_ledger cid tgt s
    exact ⟨by rw [hn5], fun x hx hcx => by rw [hn5] at hx; exact hx,
      hn1, hn3, hn2, by
        have := (handleRenege_ledger cid tgt s).2.2.1
        exact this, hn4⟩
  | serviceDone cid tgt =>
    unfold handleEv at h
    simp at h
    subst h
    obtain ⟨hd1, hd2⟩ := handleServiceDone_closes g cid tgt s
    obtain ⟨_, _, hw3, _, hw5, hw6, hw7, hw8⟩ := handleServiceDone_ledger g cid tgt s
    exact ⟨hd1, hd2, hw5, hw7, hw6, hw3, hw8⟩

theorem handleOpenExtra_open (s : Sim) (h : s.open_extra_cashier = true) :
    handleOpenExtra s = s := by
  simp [handleOpenExtra, h]

theorem handleOpenExtra_closed (s : Sim) (h : s.open_extra_cashier = false) :
    handleOpenExtra s =
      pushEv { s with open_extra_cashier := true, openedAt := s.now,
                      windowsOpened := s.windowsOpened + 1 } (s.now + 2) 1 .closeExtra := by
  simp [handleOpenExtra, h]

/-- One simulation step preserves the overflow-window invariant. -/
theorem overflowInv_step {g : Oracles} {hor : ℚ} {s s' : Sim}
    (h : stepRep g hor s = .ok (some s')) (inv : OverflowInv s) : OverflowInv s' := by
  obtain ⟨e, rest, hpop, ht, hh⟩ := stepRep_ok_some h
  have hperm := popNext_perm hpop
  have hcount : closeCount s.events =
      closeCount rest + (if isClose e = true then 1 else 0) := by
    have hp := hperm.countP_eq isClose
    rw [List.countP_cons] at hp
    exact hp
  have hmemrest : ∀ x ∈ rest, x ∈ s.events := fun x hx =>
    (hperm.mem_iff).mpr (List.mem_cons_of_mem _ hx)
  by_cases hko : e.kind = EvKind.openExtra
  · -- a (re-)trigger of the overflow-activation process
    have hce : isClose e = false := by
      cases hic : isClose e
      · rfl
      · rw [isClose_iff] at hic
        rw [hko] at hic
        simp at hic
    have hcr : closeCount s.events = closeCount rest := by
      rw [hcount, hce]
      simp
    have hs' : s' = handleOpenExtra { s with now := e.time, events := rest } := by
      obtain ⟨t, pr, id, k⟩ := e
      simp at hko
      subst hko
      unfold handleEv at hh
      simp at hh
      exact hh.symm
    by_cases hop : s.open_extra_cashier
    · -- already open: the body is a no-op
      obtain ⟨hc1, hc2, hc3, hc4⟩ := inv.1 hop
      rw [hs', handleOpenExtra_open _ (by exact hop)]
      have hnow : e.time ≤ s.openedAt + 2 := by
        have hpos : 0 < closeCount rest := by omega
        rw [closeCount] at hpos
        obtain ⟨c, hcmem, hcc⟩ := List.countP_pos_iff.mp hpos
        calc e.time ≤ c.time := popNext_min hpop c hcmem
          _ = s.openedAt + 2 := hc2 c (hmemrest c hcmem) hcc
      refine ⟨fun _ => ⟨by show closeCount rest = 1; omega, ?_, hc3, hnow⟩,
        fun hfalse => ?_⟩
      · intro x hx hcx
        exact hc2 x (hmemrest x hx) hcx
      · rw [show ({ s with now := e.time, events := rest } : Sim).open_extra_cashier = s.open_extra_cashier from rfl, hop] at hfalse
        simp at hfalse
    · -- closed: open the window, schedule the close two units later
      have hop' : s.open_extra_cashier = false := by simpa using hop
      obtain ⟨hc1, hc2⟩ := inv.2 hop'
      have hrest0 : closeCount rest = 0 := by omega
      rw [hs', handleOpenExtra_closed _ (by exact hop')]
      refine ⟨fun _ => ⟨?_, ?_, ?_, ?_⟩, fun hfalse => by simp [pushEv] at hfalse⟩
      · show closeCount (rest ++ [⟨e.time + 2, 1, s.nextEid, .closeExtra⟩]) = 1
        rw [closeCount_append, hrest0]
        simp [closeCount, List.countP_cons, isClose]
      · intro x hx hcx
        have hx' : x ∈ rest ++ [⟨e.time + 2, 1, s.nextEid, .closeExtra⟩] := hx
        rcases List.mem_append.mp hx' with hx2 | hx2
        · exfalso
          have : ¬ isClose x = true :=
            (List.countP_eq_zero.mp hrest0) x hx2
          exact this hcx
        · simp at hx2
          subst hx2
          rfl
      · show s.windowsOpened + 1 = s.windowsCharged + 1
        omega
      · show e.time ≤ e.time + 2
        linarith
  · by_cases hkc : e.kind = EvKind.closeExtra
    · -- the window close fires
      have hce : isClose e = true := (isClose_iff e).mpr hkc
      have hs' : s' = handleCloseExtra { s with now := e.time, events := rest } := by
        obtain ⟨t, pr, id, k⟩ := e
        simp at hkc
        subst hkc
        unfold handleEv at hh
        simp at hh
        exact hh.symm
      have hop : s.open_extra_cashier = true := by
        by_contra hno
        have hop' : s.open_extra_cashier = false := by simpa using hno
        obtain ⟨hc1, _⟩ := inv.2 hop'
        have hmem : e ∈ s.events := (hperm.mem_iff).mpr (List.mem_cons_self _ _)
        have hpos : 0 < closeCount s.events := by
          rw [closeCount]
          exact List.countP_pos_iff.mpr ⟨e, hmem, hce⟩
        omega
      obtain ⟨hc1, hc2, hc3, hc4⟩ := inv.1 hop
      have hrest0 : closeCount rest = 0 := by
        rw [hce] at hcount
        simp at hcount
        omega
      rw [hs']
      refine ⟨fun htrue => ?_, fun _ => ⟨?_, ?_⟩⟩
      · simp [handleCloseExtra] at htrue
      · show closeCount rest = 0
        exact hrest0
      · show s.windowsOpened = s.windowsCharged + 1
        exact hc3
    · -- any other event: the overflow bookkeeping is untouched
      have hce : isClose e = false := by
        cases hic : isClose e
        · rfl
        · rw [isClose_iff] at hic
          exact absurd hic hkc
      have hcr : closeCount s.events = closeCount rest := by
        rw [hcount, hce]
        simp
      obtain ⟨ho1, ho2, ho3, ho4, ho5, ho6, ho7⟩ := handleEv_other hh hko hkc
      by_cases hop : s.open_extra_cashier
      · obtain ⟨hc1, hc2, hc3, hc4⟩ := inv.1 hop
        have hnow : e.time ≤ s.openedAt + 2 := by
          have hpos : 0 < closeCount rest := by omega
          rw [closeCount] at hpos
          obtain ⟨c, hcmem, hcc⟩ := List.countP_pos_iff.mp hpos
          calc e.time ≤ c.time := popNext_min hpop c hcmem
            _ = s.openedAt + 2 := hc2 c (hmemrest c hcmem) hcc
        refine ⟨fun _ => ⟨?_, ?_, ?_, ?_⟩, fun hfalse => ?_⟩
        · rw [ho1]
          show closeCount rest = 1
          omega
        · intro x hx hcx
          have hx' : x ∈ rest := ho2 x hx hcx
          rw [ho4]
          show x.time = s.openedAt + 2
          exact hc2 x (hmemrest x hx') hcx
        · rw [ho5, ho6]
          exact hc3
        · rw [ho7, ho4]
          show e.time ≤ s.openedAt + 2
          exact hnow
        · rw [ho3] at hfalse
          rw [show ({ s with now := e.time, events := rest } : Sim).open_extra_cashier = s.open_extra_cashier from rfl, hop] at hfalse
          simp at hfalse
      · have hop' : s.open_extra_cashier = false := by simpa using hop
        obtain ⟨hc1, hc2⟩ := inv.2 hop'
        refine ⟨fun htrue => ?_, fun _ => ⟨?_, ?_⟩⟩
        · rw [ho3] at htrue
          rw [show ({ s with now := e.time, events := rest } : Sim).open_extra_cashier = s.open_extra_cashier from rfl, hop'] at htrue
          simp at htrue
        · rw [ho1]
          show closeCount rest = 0
          omega
        · rw [ho5, ho6]
          exact hc2

theorem reachable_overflowInv {g : Oracles} {hor : ℚ} {p : Params} {s : Sim}
    (h : Reachable g hor p s) : OverflowInv s := by
  induction h with
  | init =>
    constructor
    · intro htrue
      simp [initSim] at htrue
    · intro _
      constructor
      · simp [initSim, closeCount, List.countP_cons, isClose]
      · simp [initSim]
  | step hs hstep ih => exact overflowInv_step hstep ih

/-! Part: The queue bound invariant (towards C10) -/

theorem removeFirstQ_length_le (cid : Nat) :
    ∀ l : List (Nat × ℚ), (removeFirstQ cid l).length ≤ l.length := by
  intro l
  induction l with
  | nil => simp [removeFirstQ]
  | cons x t ih =>
    by_cases h : x.1 = cid <;> simp [removeFirstQ, h] <;> omega


theorem getD_queue_bound {s : Sim} (inv : ∀ c ∈ s.cashiers, c.queue.length ≤ 5)
    (i : Nat) : (s.cashiers.getD i ⟨false, []⟩).queue.length ≤ 5 := by
  rw [List.getD_eq_getElem?_getD]
  cases h : s.cashiers[i]? with
  | none => simp
  | some c =>
    simp
    exact inv c (List.getElem?_mem h)

theorem set_queue_bound {cs : List CashierState} {i : Nat} {v : CashierState}
    (inv : ∀ c ∈ cs, c.queue.length ≤ 5) (hv : v.queue.length ≤ 5) :
    ∀ c ∈ cs.set i v, c.queue.length ≤ 5 := by
  intro c hc
  rcases List.mem_or_eq_of_mem_set hc with hc2 | hc2
  · exact inv c hc2
  · exact hc2 ▸ hv

theorem handleRenege_cashiers (cid : Nat) (tgt : Tgt) (s : Sim) :
    (handleRenege cid tgt s).cashiers =
        (s.setTgt tgt { s.tgtRes tgt with
          queue := removeFirstQ cid (s.tgtRes tgt).queue }).cashiers ∨
    (handleRenege cid tgt s).cashiers = s.cashiers := by
  simp only [handleRenege]
  split
  · left; rfl
  · right; rfl

/-- One handler run keeps every regular queue at length at most 5: a
customer only joins the regular cashier whose queue is the current
minimum, and only when that minimum is strictly below 5, and every other
queue mutation shortens a queue. -/
theorem handleEv_queueBound {g : Oracles} {e : Event} {s s' : Sim}
    (h : handleEv g e s = .ok s')
    (inv : ∀ c ∈ s.cashiers, c.queue.length ≤ 5) :
    ∀ c ∈ s'.cashiers, c.queue.length ≤ 5 := by
  obtain ⟨t, pr, id, k⟩ := e
  cases k with
  | arrivalInit =>
    unfold handleEv handleArrivalInit at h
    cases hd : drawGapCheck s with
    | error err => rw [hd] at h; simp at h
    | ok u =>
      rw [hd] at h
      simp at h
      subst h
      simpa using inv
  | arrivalTimeout k =>
    unfold handleEv handleArrivalTimeout at h
    simp only at h
    cases hd : drawGapCheck { pushEv s s.now 0 (.custStart s.nextCid) with
        nextCid := (pushEv s s.now 0 (.custStart s.nextCid)).nextCid + 1 } with
    | error err => rw [hd] at h; simp at h
    | ok u =>
      rw [hd] at h
      simp at h
      subst h
      simpa [pushEv] using inv
  | custStart cid =>
    unfold handleEv handleCustStart at h
    cases hc : choose_cashier s with
    | error err => rw [hc] at h; simp at h
    | ok p =>
      obtain ⟨ro, s1⟩ := p
      rw [hc] at h
      have hs1 := choose_cashier_state hc
      have hs1cash : s1.cashiers = s.cashiers := by
        rcases hs1 with hs1 | hs1 <;> subst hs1 <;> simp [spawnOpenExtra]
      cases ro with
      | none =>
        simp at h
        subst h
        show ∀ c ∈ s1.cashiers, c.queue.length ≤ 5
        rw [hs1cash]
        exact inv
      | some tgt =>
        simp at h
        subst h
        cases tgt with
        | extra =>
          simp only [requestRace]
          split <;> intro c hc2 <;>
            simp [Sim.setTgt, hs1cash] at hc2 <;> exact inv c hc2
        | reg i =>
          obtain ⟨c0, hc0, hlt⟩ := choose_cashier_reg hc
          have hres : s1.tgtRes (.reg i) = c0 := by
            show s1.cashiers.getD i ⟨false, []⟩ = c0
            rw [hs1cash, List.getD_eq_getElem?_getD, hc0]
            rfl
          simp only [requestRace, hres]
          split
          · intro c hc2
            rw [pushEv_cashiers, setTgt_reg_cashiers, hs1cash] at hc2
            refine set_queue_bound inv ?_ c hc2
            simp
            omega
          · intro c hc2
            simp only [pushEv_cashiers] at hc2
            have hc3 : c ∈ s.cashiers.set i { c0 with busy := true } := by
              rw [← hs1cash]
              exact hc2
            refine set_queue_bound inv ?_ c hc3
            simp
            omega
  | openExtra =>
    unfold handleEv at h
    simp at h
    subst h
    unfold handleOpenExtra
    split
    · exact inv
    · intro c hc2
      simp at hc2
      exact inv c hc2
  | closeExtra =>
    unfold handleEv handleCloseExtra at h
    simp at h
    subst h
    simpa using inv
  | renege cid tgt =>
    unfold handleEv at h
    simp at h
    subst h
    intro c hc2
    rcases handleRenege_cashiers cid tgt s with hcc | hcc
    · rw [hcc] at hc2
      cases tgt with
      | extra =>
        rw [setTgt_extra_cashiers] at hc2
        exact inv c hc2
      | reg i =>
        rw [setTgt_reg_cashiers] at hc2
        rcases List.mem_or_eq_of_mem_set hc2 with h3 | h3
        · exact inv c h3
        · subst h3
          show (removeFirstQ cid (s.tgtRes (.reg i)).queue).length ≤ 5
          calc (removeFirstQ cid (s.tgtRes (.reg i)).queue).length
              ≤ (s.tgtRes (.reg i)).queue.length := removeFirstQ_length_le cid _
            _ ≤ 5 := getD_queue_bound inv i
    · rw [hcc] at hc2
      exact inv c hc2
  | serviceDone cid tgt =>
    unfold handleEv at h
    simp at h
    subst h
    simp only [handleServiceDone]
    cases hq : (Sim.tgtRes { s with profit := s.profit + 10, served := s.served + 1 } tgt).queue with
    | nil =>
      cases tgt with
      | extra =>
        intro c hc2
        rw [setTgt_extra_cashiers] at hc2
        exact inv c hc2
      | reg i =>
        intro c hc2
        rw [setTgt_reg_cashiers] at hc2
        rcases List.mem_or_eq_of_mem_set hc2 with h3 | h3
        · exact inv c h3
        · subst h3
          simp
    | cons hd restq =>
      obtain ⟨c2, arr2⟩ := hd
      cases tgt with
      | extra =>
        intro c hc2
        simp only [pushEv_cashiers] at hc2
        have hc3 : c ∈ s.cashiers := hc2
        exact inv c hc3
      | reg i =>
        intro c hc2
        simp only [pushEv_cashiers] at hc2
        have hc3 : c ∈ s.cashiers.set i { busy := (Sim.tgtRes { s with profit := s.profit + 10, served := s.served + 1 } (.reg i)).busy, queue := restq } := hc2
        rcases List.mem_or_eq_of_mem_set hc3 with h3 | h3
        · exact inv c h3
        · subst h3
          simp
          have hlen : (Sim.tgtRes { s with profit := s.profit + 10, served := s.served + 1 } (.reg i)).queue.length ≤ 5 :=
            getD_queue_bound inv i
          rw [hq] at hlen
          simp at hlen
          omega

theorem reachable_queueBound {g : Oracles} {hor : ℚ} {p : Params} {s : Sim}
    (h : Reachable g hor p s) : ∀ c ∈ s.cashiers, c.queue.length ≤ 5 := by
  induction h with
  | init =>
    intro c hc
    simp [initSim] at hc
    rcases hc with ⟨-, hc⟩
    subst hc
    simp
  | step hs hstep ih =>
    obtain ⟨e, rest, hpop, ht, hh⟩ := stepRep_ok_some hstep
    exact handleEv_queueBound hh (by exact ih)

/-! Part: Helpers for the per-step customer theorems (C4, C5) -/

theorem tgtRes_clock (s : Sim) (tgt : Tgt) (t : ℚ) (evs : List Event) :
    ({ s with now := t, events := evs } : Sim).tgtRes tgt = s.tgtRes tgt := by
  cases tgt <;> rfl

theorem tgtRes_lost_bump (s : Sim) (tgt : Tgt) :
    ({ s with lost_customers := s.lost_customers + 1 } : Sim).tgtRes tgt =
      s.tgtRes tgt := by
  cases tgt <;> rfl

theorem tgt_index_lt_of_queue_mem {s : Sim} {tgt : Tgt} {cid : Nat}
    (hin : cid ∈ ((s.tgtRes tgt).queue.map Prod.fst)) :
    ∀ i, tgt = .reg i → i < s.cashiers.length := by
  intro i hi
  subst hi
  by_contra hge
  push_neg at hge
  have hd : s.cashiers.getD i ⟨false, []⟩ = ⟨false, []⟩ :=
    List.getD_eq_default _ _ hge
  rw [show s.tgtRes (.reg i) = s.cashiers.getD i ⟨false, []⟩ from rfl, hd] at hin
  simp at hin

theorem tgtRes_setTgt_self (s : Sim) (tgt : Tgt) (v : CashierState)
    (hlt : ∀ i, tgt = .reg i → i < s.cashiers.length) :
    (s.setTgt tgt v).tgtRes tgt = v := by
  cases tgt with
  | extra => rfl
  | reg i =>
    show ((s.cashiers.set i v).getD i ⟨false, []⟩) = v
    rw [List.getD_eq_getElem?_getD, List.getElem?_set]
    simp [hlt i rfl]

theorem removeFirstQ_count {cid : Nat} : ∀ {l : List (Nat × ℚ)},
    cid ∈ l.map Prod.fst →
    ((removeFirstQ cid l).map Prod.fst).count cid + 1 =
      (l.map Prod.fst).count cid := by
  intro l
  induction l with
  | nil => intro h; simp at h
  | cons x t ih =>
    intro h
    by_cases hx : x.1 = cid
    · simp [removeFirstQ, hx, List.count_cons]
    · have h2 : cid ∈ t.map Prod.fst := by
        simp only [List.map_cons, List.mem_cons] at h
        rcases h with h3 | h3
        · exact absurd h3.symm hx
        · exact h3
      simp [removeFirstQ, hx, List.count_cons, ih h2]

/-- When the reneging customer is still queued, the handler counts one
more lost customer, records nothing else, and withdraws exactly that
pending request from the resource's queue. -/
theorem handleRenege_hit {cid : Nat} {tgt : Tgt} {s : Sim}
    (hin : cid ∈ ((s.tgtRes tgt).queue.map Prod.fst)) :
    (handleRenege cid tgt s).lost_customers = s.lost_customers + 1 ∧
    (handleRenege cid tgt s).waiting_times = s.waiting_times ∧
    (handleRenege cid tgt s).profit = s.profit ∧
    ((handleRenege cid tgt s).tgtRes tgt).queue =
      removeFirstQ cid (s.tgtRes tgt).queue := by
  have hc : ((s.tgtRes tgt).queue.map Prod.fst).contains cid = true := by
    simpa using hin
  have hres := tgtRes_setTgt_self s tgt
    { s.tgtRes tgt with queue := removeFirstQ cid (s.tgtRes tgt).queue }
    (tgt_index_lt_of_queue_mem hin)
  simp only [handleRenege]
  rw [if_pos hc]
  refine ⟨by simp, by simp, by simp, ?_⟩
  rw [tgtRes_lost_bump, hres]

/- The kernel evaluates rational arithmetic fine, but the `Rat`
operations are irreducible for the elaborator, which blocks `decide` on
concrete simulation runs; restore the default transparency locally so
that witnesses can be checked by evaluation. -/
set_option allowUnsafeReducibility true
attribute [local semireducible] Rat.add Rat.sub Rat.mul Rat.neg Rat.blt

/-! Part: Claim theorems -/

/-- C1: for every completed replication the final profit equals 10 times
the number of customers whose service completed minus `2*C` times the
number of overflow-activation windows that were charged; and per step,
each served customer adds exactly 10 at service completion, each charged
window subtracts exactly `2*C` at window close, and no other event
handler mutates the profit. -/
theorem profit_accounting (g : Oracles) (p : Params) :
    (∀ fuel s', runRep g 200 fuel (initSim p) = .ok (some s') →
      s'.profit = 10 * (s'.served : ℚ) - 2 * p.C * (s'.windowsCharged : ℚ)) ∧
    (∀ e s s', handleEv g e s = .ok s' →
      (s'.profit = s.profit ∧ s'.served = s.served ∧
        s'.windowsCharged = s.windowsCharged) ∨
      (s'.profit = s.profit + 10 ∧ s'.served = s.served + 1 ∧
        s'.windowsCharged = s.windowsCharged) ∨
      (s'.profit = s.profit - 2 * s.C ∧ s'.served = s.served ∧
        s'.windowsCharged = s.windowsCharged + 1)) := by
  constructor
  · intro fuel s' hrun
    have hreach := runRep_reachable Reachable.init hrun
    obtain ⟨hp, hC⟩ := reachable_ledger hreach
    rw [hp, hC]
  · intro e s s' h
    exact (handleEv_ledger h).2

/-- C1 witness: the no-arrival replication completes and its final
profit satisfies the ledger equation. -/
theorem profit_accounting_witness :
    runRep gLate 200 5 (initSim pDefault) = .ok (some lateFinal) ∧
    lateFinal.profit = 10 * (lateFinal.served : ℚ) -
      2 * pDefault.C * (lateFinal.windowsCharged : ℚ) :=
  ⟨by decide, (profit_accounting gLate pDefault).1 5 lateFinal (by decide)⟩

/-- C2: on every call with at least one cashier, if the overflow window
is open `choose_cashier` returns the overflow resource unconditionally
(regardless of any queue length, and without touching the state);
otherwise it selects among the regular cashiers the one with minimal
current queue length, breaking ties by the lowest pool index — and, per
lines 51-54, spawns the activation process when that minimum reaches the
policy threshold and yields `none` (balk) when the minimum is at the
saturation threshold 5. -/
theorem choose_cashier_routing (s : Sim) (hne : s.cashiers ≠ []) :
    (s.open_extra_cashier = true → choose_cashier s = .ok (some .extra, s)) ∧
    (s.open_extra_cashier = false →
      ∃ m i c,
        s.cashiers[i]? = some c ∧ c.queue.length = m ∧
        (∀ c2 ∈ s.cashiers, m ≤ c2.queue.length) ∧
        (∀ j, j < i → ∀ c2, s.cashiers[j]? = some c2 → m < c2.queue.length) ∧
        choose_cashier s =
          .ok (if m < 5 then some (.reg i) else none,
               if s.extra_cashier_policy ≤ m then spawnOpenExtra s else s)) := by
  obtain ⟨m, i, ⟨c, hc, hcm⟩, hmin, hstrict, hopen, hclosed⟩ :=
    choose_cashier_spec s hne
  exact ⟨hopen, fun hcl => ⟨m, i, c, hc, hcm, hmin, hstrict, hclosed hcl⟩⟩

/-- C2 witness: with the window open, routing goes to the overflow
resource even though its own queue is irrelevant; with it closed and
queue lengths `[2, 1, 1]`, the tie between cashiers 1 and 2 breaks to
pool index 1. -/
theorem choose_cashier_routing_witness :
    choose_cashier { sTie with open_extra_cashier := true } =
      .ok (some .extra, { sTie with open_extra_cashier := true }) ∧
    choose_cashier sTie = .ok (some (.reg 1), sTie) :=
  ⟨(choose_cashier_routing { sTie with open_extra_cashier := true }
      (by decide)).1 rfl,
   by decide⟩

/-- C3: within one replication overflow windows never overlap: while the
window is open there is exactly one pending close, scheduled exactly 2.0
after the opening instant and never behind the clock, and exactly one
more window has been opened than charged (`OverflowInv`); a trigger
popped while the window is open leaves the state untouched; and a close
event can only fire while the window is open, exactly 2.0 time units
after it opened, whereupon the flag clears and `2*C` is deducted exactly
once. -/
theorem overflow_window_exclusive (g : Oracles) (hor : ℚ) (p : Params)
    (s : Sim) (h : Reachable g hor p s) :
    OverflowInv s ∧
    (∀ e rest, popNext s.events = some (e, rest) → e.kind = .openExtra →
      s.open_extra_cashier = true →
      handleEv g e { s with now := e.time, events := rest } =
        .ok { s with now := e.time, events := rest }) ∧
    (∀ e rest s', popNext s.events = some (e, rest) → e.kind = .closeExtra →
      handleEv g e { s with now := e.time, events := rest } = .ok s' →
      s.open_extra_cashier = true ∧ e.time = s.openedAt + 2 ∧
      s'.open_extra_cashier = false ∧ s'.profit = s.profit - 2 * s.C ∧
      s'.windowsCharged = s.windowsCharged + 1) := by
  have inv := reachable_overflowInv h
  refine ⟨inv, ?_, ?_⟩
  · intro e rest hpop hk hopen
    obtain ⟨t, pr, id, k⟩ := e
    simp at hk
    subst hk
    unfold handleEv
    simp
    exact handleOpenExtra_open _ (by exact hopen)
  · intro e rest s' hpop hk hh
    have hperm := popNext_perm hpop
    have hmem : e ∈ s.events := (hperm.mem_iff).mpr (List.mem_cons_self _ _)
    have hce : isClose e = true := (isClose_iff e).mpr hk
    have hopen : s.open_extra_cashier = true := by
      by_contra hno
      have hop' : s.open_extra_cashier = false := by simpa using hno
      obtain ⟨hc1, -⟩ := inv.2 hop'
      have hpos : 0 < closeCount s.events := by
        rw [closeCount]
        exact List.countP_pos_iff.mpr ⟨e, hmem, hce⟩
      omega
    obtain ⟨-, hc2, -, -⟩ := inv.1 hopen
    have hs' : s' = handleCloseExtra { s with now := e.time, events := rest } := by
      obtain ⟨t, pr, id, k⟩ := e
      simp at hk
      subst hk
      unfold handleEv at hh
      simp at hh
      exact hh.symm
    refine ⟨hopen, hc2 e hmem hce, ?_, ?_, ?_⟩ <;> rw [hs'] <;> rfl

/-- C3 witness: the invariant holds at the freshly initialised model. -/
theorem overflow_window_exclusive_witness : OverflowInv (initSim pDefault) :=
  (overflow_window_exclusive gLate 200 pDefault (initSim pDefault)
    Reachable.init).1

/-- C4: when the patience timeout (scheduled 1.0 after the join) of a
customer that is still queued fires, exactly one more customer is
counted lost, no wait time is recorded, no revenue is added, and the
customer's pending request is withdrawn from that resource's queue — its
occurrence count drops by one, so it does not linger as a hidden queue
occupant. -/
theorem renege_effect (g : Oracles) (hor : ℚ) (s : Sim) (e : Event)
    (rest : List Event) (cid : Nat) (tgt : Tgt) (s' : Sim)
    (hpop : popNext s.events = some (e, rest)) (hk : e.kind = .renege cid tgt)
    (hin : cid ∈ ((s.tgtRes tgt).queue.map Prod.fst))
    (hstep : stepRep g hor s = .ok (some s')) :
    s'.lost_customers = s.lost_customers + 1 ∧
    s'.waiting_times = s.waiting_times ∧
    s'.profit = s.profit ∧
    (s'.tgtRes tgt).queue = removeFirstQ cid ((s.tgtRes tgt).queue) ∧
    ((s'.tgtRes tgt).queue.map Prod.fst).count cid + 1 =
      ((s.tgtRes tgt).queue.map Prod.fst).count cid := by
  obtain ⟨e2, rest2, hpop2, ht2, hh⟩ := stepRep_ok_some hstep
  rw [hpop] at hpop2
  simp at hpop2
  obtain ⟨he, hrest⟩ := hpop2
  subst he
  subst hrest
  obtain ⟨t, pr, id, k⟩ := e
  simp at hk
  subst hk
  unfold handleEv at hh
  simp at hh
  have hin1 : cid ∈
      ((({ s with now := t, events := rest } : Sim).tgtRes tgt).queue.map
        Prod.fst) := by
    rw [tgtRes_clock]
    exact hin
  obtain ⟨h1, h2, h3, h4⟩ := handleRenege_hit hin1
  rw [hh] at h1 h2 h3 h4
  rw [tgtRes_clock] at h4
  refine ⟨h1, h2, h3, h4, ?_⟩
  rw [h4]
  exact removeFirstQ_count hin
/-- C4 witness: customer 0 waits on cashier 0 and its patience timeout
fires with the customer still queued. -/
theorem renege_effect_witness :
    popNext sPatience.events =
      some (⟨1, 1, 5, .renege 0 (.reg 0)⟩, []) ∧
    (0 : Nat) ∈ ((sPatience.tgtRes (.reg 0)).queue.map Prod.fst) ∧
    stepRep gLate 200 sPatience = .ok (some sPatienceNext) ∧
    sPatienceNext.lost_customers = sPatience.lost_customers + 1 ∧
    sPatienceNext.waiting_times = sPatience.waiting_times ∧
    sPatienceNext.profit = sPatience.profit ∧
    (sPatienceNext.tgtRes (.reg 0)).queue =
      removeFirstQ 0 ((sPatience.tgtRes (.reg 0)).queue) := by
  refine ⟨by decide, by decide, by decide, ?_⟩
  have h := renege_effect gLate 200 sPatience ⟨1, 1, 5, .renege 0 (.reg 0)⟩
    [] 0 (.reg 0) sPatienceNext (by decide) rfl (by decide) (by decide)
  exact ⟨h.1, h.2.1, h.2.2.1, h.2.2.2.1⟩

/-- C5: a customer whose routing decision finds the minimum regular
queue length at least 5 while the overflow window is closed balks: one
more customer is counted lost, no resource queue (regular or overflow)
changes, no wait time is recorded and no revenue is added. -/
theorem balk_effect (g : Oracles) (hor : ℚ) (s : Sim) (e : Event)
    (rest : List Event) (cid : Nat) (s' : Sim)
    (hpop : popNext s.events = some (e, rest)) (hk : e.kind = .custStart cid)
    (hopen : s.open_extra_cashier = false) (hne : s.cashiers ≠ [])
    (hfull : ∀ c ∈ s.cashiers, 5 ≤ c.queue.length)
    (hstep : stepRep g hor s = .ok (some s')) :
    s'.lost_customers = s.lost_customers + 1 ∧
    s'.waiting_times = s.waiting_times ∧
    s'.cashiers = s.cashiers ∧ s'.extra = s.extra ∧ s'.profit = s.profit := by
  obtain ⟨e2, rest2, hpop2, ht2, hh⟩ := stepRep_ok_some hstep
  rw [hpop] at hpop2
  simp at hpop2
  obtain ⟨he, hrest⟩ := hpop2
  subst he
  subst hrest
  obtain ⟨t, pr, id, k⟩ := e
  simp at hk
  subst hk
  unfold handleEv handleCustStart at hh
  simp at hh
  have hne1 : ({ s with now := t, events := rest } : Sim).cashiers ≠ [] := hne
  obtain ⟨m, i, ⟨c, hc, hcm⟩, hmin, hstrict, hop, hclosed⟩ :=
    choose_cashier_spec { s with now := t, events := rest } hne1
  have hopen1 :
      ({ s with now := t, events := rest } : Sim).open_extra_cashier = false :=
    hopen
  have hm5 : ¬ m < 5 := by
    have hcm2 : c ∈ ({ s with now := t, events := rest } : Sim).cashiers :=
      List.getElem?_mem hc
    have h5 : 5 ≤ c.queue.length := hfull c hcm2
    omega
  rw [hclosed hopen1, if_neg hm5] at hh
  simp at hh
  by_cases hpol :
      ({ s with now := t, events := rest } : Sim).extra_cashier_policy ≤ m
  · rw [if_pos hpol] at hh
    rw [← hh]
    refine ⟨by simp [spawnOpenExtra], by simp [spawnOpenExtra],
      by simp [spawnOpenExtra], by simp [spawnOpenExtra],
      by simp [spawnOpenExtra]⟩
  · rw [if_neg hpol] at hh
    rw [← hh]
    exact ⟨rfl, rfl, rfl, rfl, rfl⟩

/-- C5 witness: a customer routed while the single regular cashier's
queue holds 5 pending requests and the window is closed balks. -/
theorem balk_effect_witness :
    popNext sSaturated.events = some (⟨1, 0, 9, .custStart 6⟩, []) ∧
    sSaturated.open_extra_cashier = false ∧
    (∀ c ∈ sSaturated.cashiers, 5 ≤ c.queue.length) ∧
    stepRep gLate 200 sSaturated = .ok (some sSaturatedNext) ∧
    sSaturatedNext.lost_customers = sSaturated.lost_customers + 1 ∧
    sSaturatedNext.waiting_times = sSaturated.waiting_times ∧
    sSaturatedNext.cashiers = sSaturated.cashiers ∧
    sSaturatedNext.extra = sSaturated.extra ∧
    sSaturatedNext.profit = sSaturated.profit := by
  refine ⟨by decide, by decide, by decide, by decide, ?_⟩
  exact balk_effect gLate 200 sSaturated ⟨1, 0, 9, .custStart 6⟩ [] 6
    sSaturatedNext (by decide) rfl (by decide) (by decide) (by decide)
    (by decide)

/-- C10: in every reachable state of a replication, every regular
cashier's pending-request queue has length at most 5 — a customer joins
a regular queue only when it is the (first) minimum and strictly shorter
than 5, with no yield between the routing decision and the request. -/
theorem regular_queue_bound (g : Oracles) (hor : ℚ) (p : Params) (s : Sim)
    (h : Reachable g hor p s) :
    ∀ c ∈ s.cashiers, c.queue.length ≤ 5 :=
  reachable_queueBound h

/-- C10 witness: the bound holds for the cashiers of the initial
state. -/
theorem regular_queue_bound_witness :
    (⟨false, []⟩ : CashierState) ∈ (initSim pDefault).cashiers ∧
    (⟨false, []⟩ : CashierState).queue.length ≤ 5 :=
  ⟨by decide, regular_queue_bound gLate 200 pDefault (initSim pDefault)
    Reachable.init ⟨false, []⟩ (by decide)⟩

/-- C6 counterexample: on profits `[0, 2]` over 2 runs, the returned
profit half-width is `1.96 * np.std([0,2]) / sqrt 2` with numpy's
population standard deviation (equal to 1 here), which differs from the
claimed `1.96 * sample_std / sqrt 2` (the sample standard deviation of
`[0, 2]` is `sqrt 2`). -/
theorem ci_sample_std_counterexample :
    (simulateReturn [0, 2] [0, 0] [] 2).1.2 ≠
      1.96 * sampleStdSpec [0, 2] / Real.sqrt 2 := by
  have hmean : npMean [0, 2] = 1 := by
    norm_num [npMean]
  have hstd : npStd [0, 2] = 1 := by
    rw [npStd, hmean]
    have hinner : npMean ([(0 : ℝ), 2].map fun x => (x - 1) ^ 2) = 1 := by
      norm_num [npMean]
    rw [hinner, Real.sqrt_one]
  have hs : sampleStdSpec [0, 2] = Real.sqrt 2 := by
    rw [sampleStdSpec, hmean]
    norm_num
  simp only [simulateReturn, hstd, hs]
  have h2 : (0 : ℝ) < Real.sqrt 2 := Real.sqrt_pos.mpr (by norm_num)
  have hsq : Real.sqrt 2 ^ 2 = 2 := Real.sq_sqrt (by norm_num)
  intro heq
  rw [div_eq_div_iff (by positivity) (by positivity)] at heq
  nlinarith [hsq, h2]

/-- C6 amended: `simulate` computes the returned confidence half-width
as 1.96 times the population standard deviation (numpy's default,
divisor n) divided by the square root of `num_runs`, for the profit list
and — whenever every replication recorded a mean wait — for the
per-replication mean waits as well. -/
theorem ci_population_std (ps : List ℝ) (ls : List Nat)
    (ws : List (Option ℝ)) (n : Nat) :
    (simulateReturn ps ls ws n).1.2 = 1.96 * popStdSpec ps / Real.sqrt n ∧
    (ws.isEmpty = false → (ws.any fun w => w.isNone) = false →
      (simulateReturn ps ls ws n).2.2 =
        some (1.96 * popStdSpec ws.reduceOption / Real.sqrt n)) := by
  have hkey : ∀ xs : List ℝ, npStd xs = popStdSpec xs := by
    intro xs
    rw [npStd, popStdSpec, npMean]
    rw [List.length_map]
  constructor
  · simp only [simulateReturn]
    rw [hkey]
  · intro hne hnone
    simp only [simulateReturn, ciNaN, stdNaN, hne, hnone]
    simp [hkey]

/-- C6 amended witness: on waits `[some 1, some 3]` (no NaN) the wait
half-width uses the population standard deviation. -/
theorem ci_population_std_witness :
    ([some 1, some 3] : List (Option ℝ)).isEmpty = false ∧
    (([some 1, some 3] : List (Option ℝ)).any fun w => w.isNone) = false ∧
    (simulateReturn [2, 4] [0, 0] [some 1, some 3] 2).2.2 =
      some (1.96 * popStdSpec
        (([some 1, some 3] : List (Option ℝ)).reduceOption) / Real.sqrt 2) :=
  ⟨rfl, rfl, (ci_population_std [2, 4] [0, 0] [some 1, some 3] 2).2 rfl rfl⟩

/-- C7 counterexample: with replication wait lists `[4]` and `[]`, the
per-replication mean of the empty list is NaN (`np.mean([])`, modelled
`none`) and the aggregator lets it propagate — the returned wait-time
mean and half-width are both NaN — instead of excluding the empty
replication (exclusion would give the well-defined mean 4). -/
theorem nan_propagation_counterexample :
    avgWaitQ [] = none ∧
    (simulateReturn [10, 0] [0, 0] [some 4, none] 2).2 = (none, none) ∧
    npMean [4] = 4 := by
  refine ⟨rfl, ?_, by simp [npMean]⟩
  simp [simulateReturn, meanNaN, ciNaN, stdNaN]

/-- C7 amended: the aggregator does not treat zero-served replications
explicitly: the mean of an empty waiting-time list is NaN, and one NaN
per-replication mean makes both returned wait-time statistics NaN. -/
theorem nan_propagation (profits : List ℝ) (ls : List Nat)
    (ws : List (Option ℝ)) (n : Nat) :
    avgWaitQ [] = none ∧
    ((ws.any fun w => w.isNone) = true →
      (simulateReturn profits ls ws n).2.1 = none ∧
      (simulateReturn profits ls ws n).2.2 = none) := by
  refine ⟨rfl, fun hany => ⟨?_, ?_⟩⟩ <;>
    simp [simulateReturn, meanNaN, ciNaN, stdNaN, hany]

/-- C7 amended witness. -/
theorem nan_propagation_witness :
    (([some 4, none] : List (Option ℝ)).any fun w => w.isNone) = true ∧
    (simulateReturn [10, 0] [7, 7] [some 4, none] 2).2.1 = none ∧
    (simulateReturn [10, 0] [7, 7] [some 4, none] 2).2.2 = none :=
  ⟨rfl, (nan_propagation [10, 0] [7, 7] [some 4, none] 2).2 rfl⟩

/-- C8 counterexample: with `num_cashiers = 0` the call does not fail
with a ConfigurationError before any replication starts: it raises
IndexError (from `queues[0]` in `choose_cashier`) at the first
customer's routing decision, inside the first replication. -/
theorem no_validation_counterexample :
    simulateModel pZeroCash (fun _ => gOne) 10 30 = .error .indexError ∧
    SimError.indexError ≠ SimError.configurationError := by
  constructor
  · have hrr : runReplications pZeroCash (fun _ => gOne) 10 30 =
        .error .indexError := by decide
    simp only [simulateModel, hrr]
  · decide

/-- C8 amended: `simulate` performs no configuration validation at all.
`num_cashiers = 0` raises IndexError at the first routing decision
inside the first replication; `lambda_rate = 0` raises ZeroDivisionError
and a negative `lambda_rate` raises ValueError at the first interarrival
draw inside the run; a negative `C` is accepted and the call completes.
An exception aborts the call with no partial aggregate (the `Except`
error carries no results). -/
theorem no_validation :
    simulateModel pZeroCash (fun _ => gOne) 10 30 = .error .indexError ∧
    simulateModel pLamZero (fun _ => gOne) 10 30 = .error .zeroDivisionError ∧
    simulateModel pLamNeg (fun _ => gOne) 10 30 = .error .valueError ∧
    (simulateModel pNegC (fun _ => gLate) 10 1).isOk = true := by
  refine ⟨?_, ?_, ?_, ?_⟩
  · have hrr : runReplications pZeroCash (fun _ => gOne) 10 30 =
        .error .indexError := by decide
    simp only [simulateModel, hrr]
  · have hrr : runReplications pLamZero (fun _ => gOne) 10 30 =
        .error .zeroDivisionError := by decide
    simp only [simulateModel, hrr]
  · have hrr : runReplications pLamNeg (fun _ => gOne) 10 30 =
        .error .valueError := by decide
    simp only [simulateModel, hrr]
  · have hrr : runReplications pNegC (fun _ => gLate) 10 1 =
        .ok (some ([0], [0], [none])) := by decide
    simp only [simulateModel, hrr]
    rfl

/-- C9 counterexample: two calls whose collected lost-customer lists
differ — `[0]` versus `[99]`, with different means — return identical
values, so no mean or confidence interval for the lost-customer count is
computed or made available anywhere in the result. -/
theorem no_lost_stats_counterexample :
    simulateReturn [50] [0] [some 3] 1 = simulateReturn [50] [99] [some 3] 1 ∧
    npMean [(0 : ℝ)] ≠ npMean [(99 : ℝ)] := by
  refine ⟨rfl, ?_⟩
  simp [npMean]

/-- C9 amended: `simulate` computes and returns the sample mean and 95%
half-width for profit and for mean wait time only; the lost-customer
counts are collected per replication (line 72) and then never used — the
return value does not depend on them and contains no lost-customer
statistic. -/
theorem profit_wait_stats_only (ps : List ℝ) (ls ls2 : List Nat)
    (ws : List (Option ℝ)) (n : Nat) :
    simulateReturn ps ls ws n = simulateReturn ps ls2 ws n ∧
    simulateReturn ps ls ws n =
      ((npMean ps, 1.96 * npStd ps / Real.sqrt n),
       (meanNaN ws, ciNaN ws n)) :=
  ⟨rfl, rfl⟩

/-- C9 amended witness. -/
theorem profit_wait_stats_only_witness :
    simulateReturn [50] [0] [some 3] 1 = simulateReturn [50] [4] [some 3] 1 ∧
    simulateReturn [50] [0] [some 3] 1 =
      ((npMean [50], 1.96 * npStd [50] / Real.sqrt ((1 : Nat) : ℝ)),
       (meanNaN [some 3], ciNaN [some 3] 1)) :=
  profit_wait_stats_only [50] [0] [4] [some 3] 1
